import Mathlib

/-!
Verification development for the EnglishNet batch-import reconciliation engine
(src/App.tsx, src/services/dataService.ts, src/types.ts).

JavaScript strings are modelled as Lean `String` with all operations defined
over the underlying character list.  Turkish-locale lowercasing
(`toLocaleLowerCase('tr')`) is modelled on ASCII letters plus the Turkish
letters Ç Ğ İ I Ö Ş Ü; all other characters are left unchanged.  JavaScript
numbers appearing in the engine are integers produced by `parseInt` (modelled
as `Int`) and the derived net score (modelled in exact arithmetic over `ℚ`;
on the validated domain `0 ≤ correct + incorrect ≤ 10` the IEEE-754 value of
`correct - incorrect*0.33` rounded by `toFixed(2)` coincides with the exact
rational rounded to two decimals, since the exact value lies on the
two-decimal grid and the floating-point error is far below half a grid step).
Nondeterministic identifier generation (`Date.now() + Math.random()`) is
modelled by a counter threaded through the state producing ids that are
injective in the counter.
-/

/-- JavaScript whitespace characters relevant to the pasted-text inputs. -/
def isWsChar (c : Char) : Bool :=
  c = ' ' || c = '\t' || c = '\n' || c = '\r'

/-- `String.prototype.trim` on character lists: drop leading and trailing
whitespace. -/
def trimChars (l : List Char) : List Char :=
  ((l.dropWhile isWsChar).reverse.dropWhile isWsChar).reverse

/-- `str.trim()`. -/
def jsTrim (s : String) : String := ⟨trimChars s.data⟩

/-- Case-mapping table of `toLocaleLowerCase('tr')` on the character ranges
the application handles: ASCII uppercase maps to ASCII lowercase except
`I ↦ ı` (dotless), and the Turkish uppercase letters (including `İ ↦ i`)
map to their lowercase forms. -/
def trLowerPairs : List (Char × Char) :=
  [('I', 'ı'), ('İ', 'i'), ('Ç', 'ç'), ('Ğ', 'ğ'), ('Ö', 'ö'), ('Ş', 'ş'),
   ('Ü', 'ü'), ('A', 'a'), ('B', 'b'), ('C', 'c'), ('D', 'd'), ('E', 'e'),
   ('F', 'f'), ('G', 'g'), ('H', 'h'), ('J', 'j'), ('K', 'k'), ('L', 'l'),
   ('M', 'm'), ('N', 'n'), ('O', 'o'), ('P', 'p'), ('Q', 'q'), ('R', 'r'),
   ('S', 's'), ('T', 't'), ('U', 'u'), ('V', 'v'), ('W', 'w'), ('X', 'x'),
   ('Y', 'y'), ('Z', 'z')]

/-- One character of `toLocaleLowerCase('tr')`; characters outside the table
are unchanged. -/
def lowerTrChar (c : Char) : Char :=
  ((trLowerPairs.find? (fun p => p.1 = c)).map (·.2)).getD c

/-- `str.toLocaleLowerCase('tr')`. -/
def lowerTr (s : String) : String := ⟨s.data.map lowerTrChar⟩

/-- The result importer's `norm` helper (App.tsx line 774):
`str.trim().toLocaleLowerCase('tr')`. -/
def normTr (s : String) : String := lowerTr (jsTrim s)

/-- `a.startsWith b`. -/
def jsStartsWith (a b : String) : Bool := b.data.isPrefixOf a.data

/-- `a.endsWith b`. -/
def jsEndsWith (a b : String) : Bool := b.data.isSuffixOf a.data

/-- JavaScript `String.prototype.length` (code-unit count; all characters in
scope are in the BMP so this is the character count). -/
def jsLen (s : String) : Nat := s.data.length

/-- `s.substring(n)`. -/
def jsDrop (s : String) (n : Nat) : String := ⟨s.data.drop n⟩

/-- `s.substring(0, n)`. -/
def jsTake (s : String) (n : Nat) : String := ⟨s.data.take n⟩

/-- Split a character list at every character satisfying `p` (empty pieces
are kept; callers filter them out, which matches `split` + `filter` and the
run-splitting regex `/\s+/` on trimmed input). -/
def splitOnPredAux (p : Char → Bool) : List Char → List Char → List (List Char)
  | [], acc => [acc.reverse]
  | c :: cs, acc =>
    if p c then acc.reverse :: splitOnPredAux p cs []
    else splitOnPredAux p cs (c :: acc)

/-- Split a character list on a character predicate. -/
def splitOnPred (p : Char → Bool) (l : List Char) : List (List Char) :=
  splitOnPredAux p l []

/-- Decimal core of JavaScript `parseInt`: accumulate digit characters. -/
def digitsVal : List Char → Nat → Nat
  | [], acc => acc
  | c :: cs, acc => digitsVal cs (acc * 10 + (c.toNat - 48))

/-- Leading decimal-digit prefix of a character list, `none` when there is no
digit (`parseInt` returns `NaN` then). -/
def parseIntNat (l : List Char) : Option Nat :=
  let ds := l.takeWhile Char.isDigit
  if ds.isEmpty then none else some (digitsVal ds 0)

/-- Sign handling of `parseInt`. -/
def parseIntCore : List Char → Option Int
  | '-' :: rest => (parseIntNat rest).map (fun n => -(n : Int))
  | '+' :: rest => (parseIntNat rest).map (fun n => (n : Int))
  | l => (parseIntNat l).map (fun n => (n : Int))

/-- JavaScript `parseInt(s)` restricted to decimal inputs (the `0x` hex form
never occurs in the pasted score fields): skip leading whitespace, read an
optional sign and then the longest decimal-digit prefix; `none` models `NaN`.
Trailing non-digit characters are ignored, exactly as in `parseInt`. -/
def parseIntJS (s : String) : Option Int :=
  parseIntCore (s.data.dropWhile isWsChar)

/-- Rounding to two decimals as performed by `.toFixed(2)` followed by
`parseFloat` (exact-arithmetic model; no tie ever occurs on the engine's
domain because the exact values already lie on the two-decimal grid). -/
def round2 (x : ℚ) : ℚ := (round (x * 100) : ℤ) / 100

/-- `calculateNet` (src/services/dataService.ts lines 115-118):
`parseFloat((correct - incorrect * 0.33).toFixed(2))`. -/
def calculateNet (c i : ℚ) : ℚ := round2 (c - i * (33 / 100))

/- ## Data model (src/types.ts) -/

structure Classroom where
  id : String
  name : String
deriving DecidableEq, Repr

structure ExamDefinition where
  id : String
  name : String
  date : String
deriving DecidableEq, Repr

inductive ResStatus where
  | attended
  | missing
deriving DecidableEq, Repr

structure ExamResult where
  id : String
  studentId : String
  examId : Option String
  examName : String
  date : String
  correct : Int
  incorrect : Int
  empty : Int
  net : ℚ
  status : Option ResStatus
deriving DecidableEq, Repr

structure Student where
  id : String
  name : String
  surname : String
  classroomId : String
  targetCorrect : Option Int
deriving DecidableEq, Repr

/-- Fresh identifiers for entities created during a batch, indexed by a
counter threaded through the state (the source uses
`Date.now() + Math.random().toString()`, an opaque fresh string; the model
makes freshness explicit and provable). -/
def freshId (n : Nat) : String := "fresh-" ++ ⟨List.replicate n 'x'⟩

theorem freshId_injective : Function.Injective freshId := by
  intro a b h
  have hd : ("fresh-".data ++ List.replicate a 'x') =
      ("fresh-".data ++ List.replicate b 'x') := by
    have := congrArg String.data h
    simpa [freshId, String.data_append] using this
  have := congrArg List.length (List.append_cancel_left hd)
  simpa using this

/- ## fetchAllData (src/services/dataService.ts lines 14-34)

The four collection reads run under `Promise.all` inside a `try`; if any of
them rejects, the `catch` swallows the error and the function resolves with
all four collections empty. -/

structure AllData where
  students : List Student
  classes : List Classroom
  exams : List ExamResult
  examDefinitions : List ExamDefinition
deriving DecidableEq, Repr

/-- `fetchAllData`, with the outcome of each `getDocs` call passed in as an
`Except` value: all four succeed, or the `catch` branch returns four empty
arrays. -/
def fetchAllData (rs : Except String (List Student))
    (rc : Except String (List Classroom))
    (re : Except String (List ExamResult))
    (rd : Except String (List ExamDefinition)) : AllData :=
  match rs, rc, re, rd with
  | .ok s, .ok c, .ok e, .ok d => ⟨s, c, e, d⟩
  | _, _, _, _ => ⟨[], [], [], []⟩

/- ## Result reconciler (App.tsx, handleBatchResultImport, lines 771-983) -/

/-- Per-exam sets of strings keyed by exam-definition id, modelling the two
insertion-ordered `Map<string, Set<string>>` trackers. -/
abbrev KeyedSets := List (String × List String)

def hasKey (m : KeyedSets) (k : String) : Bool := m.any (fun p => p.1 == k)

def lookupKey (m : KeyedSets) (k : String) : Option (List String) :=
  (m.find? (fun p => p.1 == k)).map (·.2)

/-- `m.get(k).add(v)` on the modelled map-of-sets (no-op when the key is
absent, insertion order preserved, duplicates never stored). -/
def addToKey (m : KeyedSets) (k v : String) : KeyedSets :=
  m.map (fun p =>
    if p.1 == k then (p.1, if p.2.contains v then p.2 else p.2 ++ [v]) else p)

/-- Lines 893-896: seed both trackers with an empty set the first time an
exam id is seen. -/
def ensureKeys (processed involved : KeyedSets) (k : String) :
    KeyedSets × KeyedSets :=
  if hasKey processed k then (processed, involved)
  else (processed ++ [(k, [])], involved ++ [(k, [])])

/-- In-place working state of one `handleBatchResultImport` call. -/
structure BatchState where
  examDefs : List ExamDefinition
  students : List Student
  results : List ExamResult
  processed : KeyedSets
  involved : KeyedSets
  addedCount : Nat
  updatedCount : Nat
  skippedCount : Nat
  missingCount : Nat
  nextId : Nat
  today : String
deriving DecidableEq, Repr

/-- Stable insertion into a list of exam definitions sorted by weakly
decreasing name length. -/
def insertDescLen (e : ExamDefinition) : List ExamDefinition → List ExamDefinition
  | [] => [e]
  | d :: ds =>
    if d.name.data.length ≤ e.name.data.length then e :: d :: ds
    else d :: insertDescLen e ds

/-- `tempExamDefs.sort((a,b) => b.name.length - a.name.length)` — a stable
sort by decreasing name length (line 832); the source sorts the working
array in place, so the sorted order persists in the state. -/
def sortDescLen : List ExamDefinition → List ExamDefinition
  | [] => []
  | d :: ds => insertDescLen d (sortDescLen ds)

/-- Lines 793-808: tab-split the line (trimming each piece and dropping empty
pieces); if fewer than 3 fields result, whitespace-split the trimmed line and,
when at least 4 tokens exist, pop the last two as the numeric fields and
rejoin the remainder into one merged field. -/
def splitResultLine (line : String) : List String :=
  let parts := ((splitOnPred (fun c => c = '\t') line.data).map
      (fun l => jsTrim ⟨l⟩)).filter (fun p => p ≠ "")
  if parts.length < 3 then
    let spaceParts := ((splitOnPred isWsChar (jsTrim line).data).map
        (fun l => (⟨l⟩ : String))).filter (fun p => p ≠ "")
    if 4 ≤ spaceParts.length then
      let incStr := spaceParts.getLastD ""
      let rest1 := spaceParts.dropLast
      let corrStr := rest1.getLastD ""
      let rest := String.intercalate " " rest1.dropLast
      [rest, corrStr, incStr]
    else parts
  else parts

/-- The suffix-fallback predicate of lines 842-846: the merged field ends
with the student's `"name surname"` or `"surname name"`. -/
def suffixFallback (mixedStr : String) (s : Student) : Bool :=
  jsEndsWith (lowerTr mixedStr) (lowerTr (s.name ++ " " ++ s.surname)) ||
    jsEndsWith (lowerTr mixedStr) (lowerTr (s.surname ++ " " ++ s.name))

/-- The student-name string the fallback cuts out (lines 849-857). -/
def fallbackName (mixedStr : String) (s : Student) : String :=
  if jsEndsWith (lowerTr mixedStr) (lowerTr (s.name ++ " " ++ s.surname)) then
    s.name ++ " " ++ s.surname
  else s.surname ++ " " ++ s.name

/-- Lines 828-864: determine `(examNameStr, studentNameStr)` from the name
fields that remain after the numeric pops.  Two or more fields is the tab
path; a single merged field triggers the longest-exam-name-prefix heuristic
(after sorting the working exam-definition array in place) and, failing that,
the student-name-suffix fallback.  Returns the (possibly re-sorted) exam
definitions and `none` when the row cannot be identified. -/
def resolveNames (st : BatchState) (nameParts : List String) :
    List ExamDefinition × Option (String × String) :=
  if 2 ≤ nameParts.length then
    (st.examDefs,
      some (String.intercalate " " nameParts.dropLast, nameParts.getLastD ""))
  else
    let mixedStr := nameParts.headD ""
    let sortedDefs := sortDescLen st.examDefs
    match sortedDefs.find?
        (fun e => jsStartsWith (lowerTr mixedStr) (lowerTr e.name)) with
    | some e =>
      (sortedDefs, some (e.name, jsTrim (jsDrop mixedStr (jsLen e.name))))
    | none =>
      match st.students.find? (suffixFallback mixedStr) with
      | some s =>
        (sortedDefs,
          some (jsTrim (jsTake mixedStr
              (jsLen mixedStr - jsLen (fallbackName mixedStr s))),
            fallbackName mixedStr s))
      | none => (sortedDefs, none)

/-- Lines 866-879: resolve the exam definition by strict normalized equality;
when none matches, a **new** definition is created whenever the identified
exam name is nonempty (only an empty name skips the row).  Returns the
resolved definition, the updated definition list and the id counter. -/
def resolveExam (defs : List ExamDefinition) (examNameStr today : String)
    (nid : Nat) : Option (ExamDefinition × List ExamDefinition × Nat) :=
  match defs.find? (fun e => normTr e.name == normTr examNameStr) with
  | some d => some (d, defs, nid)
  | none =>
    if 0 < jsLen examNameStr then
      let d : ExamDefinition := ⟨freshId nid, examNameStr, today⟩
      some (d, defs ++ [d], nid + 1)
    else none

/-- Lines 883-886: resolve the student by normalized equality of either
`"name surname"` or `"surname name"`, first match in snapshot order. -/
def resolveStudent (students : List Student) (studentNameStr : String) :
    Option Student :=
  students.find? (fun s =>
    normTr (s.name ++ " " ++ s.surname) == normTr studentNameStr ||
    normTr (s.surname ++ " " ++ s.name) == normTr studentNameStr)

/-- Lines 892-899: record the `(examId, studentId)` pair as seen and the
student's classroom as involved for that exam. -/
def trackParticipation (processed involved : KeyedSets)
    (examId studentId classId : String) : KeyedSets × KeyedSets :=
  let pair := ensureKeys processed involved examId
  (addToKey pair.1 examId studentId, addToKey pair.2 examId classId)

/-- Lines 901-932: compute the derived fields and upsert the result row —
update in place (matched by the existing row's id) when a row for
`(studentId, examId)` exists, else append a fresh row. -/
def upsertResult (st : BatchState) (student : Student) (examDef : ExamDefinition)
    (c i : Int) : BatchState :=
  let e := 10 - (c + i)
  let net := calculateNet (c : ℚ) (i : ℚ)
  match st.results.find?
      (fun r => r.studentId == student.id && r.examId == some examDef.id) with
  | some ex =>
    let upd : ExamResult :=
      ⟨ex.id, student.id, some examDef.id, examDef.name, examDef.date,
        c, i, e, net, some .attended⟩
    let results' :=
      match st.results.findIdx? (fun r => r.id == ex.id) with
      | some idx => st.results.set idx upd
      | none => st.results
    { st with results := results', updatedCount := st.updatedCount + 1 }
  | none =>
    let nr : ExamResult :=
      ⟨freshId st.nextId, student.id, some examDef.id, examDef.name,
        examDef.date, c, i, e, net, some .attended⟩
    { st with
      results := st.results ++ [nr]
      nextId := st.nextId + 1
      addedCount := st.addedCount + 1 }

/-- Lines 820-932, after the numeric fields have been validated: name
resolution, exam resolution (with implicit creation), student resolution,
participation tracking and the upsert. -/
def processRow (st : BatchState) (nameParts : List String) (c i : Int) :
    BatchState :=
  match resolveNames st nameParts with
  | (defs', none) =>
    { st with examDefs := defs', skippedCount := st.skippedCount + 1 }
  | (defs', some (examNameStr, studentNameStr)) =>
    let st := { st with examDefs := defs' }
    match resolveExam st.examDefs examNameStr st.today st.nextId with
    | none => { st with skippedCount := st.skippedCount + 1 }
    | some (examDef, defs'', nid') =>
      let st := { st with examDefs := defs'', nextId := nid' }
      match resolveStudent st.students studentNameStr with
      | none => { st with skippedCount := st.skippedCount + 1 }
      | some student =>
        let tracked := trackParticipation st.processed st.involved
          examDef.id student.id student.classroomId
        let st := { st with processed := tracked.1, involved := tracked.2 }
        upsertResult st student examDef c i

/-- Lines 792-936: process one pasted line — tokenize, pop and validate the
two trailing numeric fields, then hand over to `processRow`; any failure
skips the line and continues. -/
def processLine (st : BatchState) (line : String) : BatchState :=
  let parts := splitResultLine line
  if 3 ≤ parts.length then
    let incorrectStr := parts.getLastD ""
    let rest1 := parts.dropLast
    let correctStr := rest1.getLastD ""
    let rest2 := rest1.dropLast
    match parseIntJS correctStr, parseIntJS incorrectStr with
    | some c, some i =>
      if 10 < c + i then { st with skippedCount := st.skippedCount + 1 }
      else processRow st rest2 c i
    | _, _ => { st with skippedCount := st.skippedCount + 1 }
  else { st with skippedCount := st.skippedCount + 1 }

/-- Lines 956-973, inner loop body: one involved student — skip when seen in
this batch, skip when a result row for `(studentId, examId)` already exists,
otherwise append a fresh all-zero `MISSING` row. -/
def mkMissingRow (n : Nat) (sid eid : String) (examDef : ExamDefinition) :
    ExamResult :=
  ⟨freshId n, sid, some eid, examDef.name, examDef.date, 0, 0, 0, 0,
    some .missing⟩

/-- Lines 956-973, inner loop body (continued): see `backfillExam`. -/
def backfillStudent (examId : String) (examDef : ExamDefinition)
    (seen : List String) (acc : BatchState) (s : Student) : BatchState :=
  if seen.contains s.id then acc
  else
    match acc.results.find?
        (fun r => r.studentId == s.id && r.examId == some examId) with
    | some _ => acc
    | none =>
      { acc with
        results := acc.results ++ [mkMissingRow acc.nextId s.id examId examDef]
        nextId := acc.nextId + 1
        missingCount := acc.missingCount + 1 }

/-- Lines 940-974, one entry of `involvedClassIdsByExam`: look up the seen
set and the exam definition (skipping the entry when the definition is
absent), filter the students down to the involved classrooms and run the
inner loop. -/
def backfillExam (st : BatchState) (entry : String × List String) : BatchState :=
  let examId := entry.1
  let classIds := entry.2
  let seen := (lookupKey st.processed examId).getD []
  match st.examDefs.find? (fun e => e.id == examId) with
  | none => st
  | some examDef =>
    (st.students.filter (fun s => classIds.contains s.classroomId)).foldl
      (backfillStudent examId examDef seen) st

/-- Lines 938-974: the auto-fill `MISSING` pass over every exam touched by
the batch. -/
def backfillMissing (st : BatchState) : BatchState :=
  st.involved.foldl backfillExam st

/-- The entity snapshot a batch starts from (the in-memory arrays plus the
id counter and today's date). -/
structure Snapshot where
  examDefs : List ExamDefinition
  students : List Student
  results : List ExamResult
  nextId : Nat
  today : String
deriving DecidableEq, Repr

/-- Lines 771-791: a fresh working state — copies of the snapshot arrays,
zeroed counters and empty participation trackers. -/
def mkBatchState (snap : Snapshot) : BatchState :=
  ⟨snap.examDefs, snap.students, snap.results, [], [], 0, 0, 0, 0,
    snap.nextId, snap.today⟩

/-- Lines 773, 792: split the pasted text into nonblank lines. -/
def linesOf (text : String) : List String :=
  ((splitOnPred (fun c => c = '\n') text.data).map
    (fun l => (⟨l⟩ : String))).filter (fun l => !(jsTrim l).data.isEmpty)

/-- The row-processing phase of `handleBatchResultImport` (everything before
the auto-fill pass). -/
def processAllLines (text : String) (snap : Snapshot) : BatchState :=
  (linesOf text).foldl processLine (mkBatchState snap)

/-- `handleBatchResultImport` (App.tsx lines 771-983): process every line,
then back-fill `MISSING` rows. -/
def runResultImport (text : String) (snap : Snapshot) : BatchState :=
  backfillMissing (processAllLines text snap)

/-- The snapshot the application keeps after a batch (`setExamDefinitions`,
`setExams`; the student list is unchanged by a result import). -/
def snapOf (st : BatchState) : Snapshot :=
  ⟨st.examDefs, st.students, st.results, st.nextId, st.today⟩

/- ## Roster reconciler (App.tsx, handleBatchStudentImport, lines 663-769) -/

/-- JavaScript default `toLowerCase` on one character, modelled on ASCII and
the Turkish letters: `I ↦ i` (no locale rules) and `İ ↦ i` followed by a
combining dot above, hence the list-valued result. -/
def plainLowerChar (c : Char) : List Char :=
  if c = 'İ' then ['i', '̇']
  else if c = 'I' then ['i']
  else [lowerTrChar c]

/-- `str.toLowerCase()` (locale-independent). -/
def plainLower (s : String) : String := ⟨s.data.flatMap plainLowerChar⟩

/-- One parsed roster row. -/
structure RosterRow where
  name : String
  surname : String
  className : String
deriving DecidableEq, Repr

/-- Lines 669-686: parse one roster line — tab-split (trim pieces, drop
empties), falling back to whitespace-splitting when fewer than 2 fields;
pop the class name, pop a surname when more than one token remains, and
join the rest as the given name.  Rows with an empty name are dropped. -/
def parseRosterLine (line : String) : Option RosterRow :=
  let parts0 := ((splitOnPred (fun c => c = '\t') line.data).map
      (fun l => jsTrim ⟨l⟩)).filter (fun p => p ≠ "")
  let parts :=
    if parts0.length < 2 then
      ((splitOnPred isWsChar (jsTrim line).data).map
        (fun l => (⟨l⟩ : String))).filter (fun p => p ≠ "")
    else parts0
  if 2 ≤ parts.length then
    let className := parts.getLastD ""
    let rest1 := parts.dropLast
    let surname := if 1 < rest1.length then rest1.getLastD "" else ""
    let nameParts := if 1 < rest1.length then rest1.dropLast else rest1
    let name := String.intercalate " " nameParts
    if name ≠ "" ∧ className ≠ "" then some ⟨name, surname, className⟩
    else none
  else none

/-- Working state of the student-processing phase of
`handleBatchStudentImport`. -/
structure RosterState where
  students : List Student
  addedCount : Nat
  updatedCount : Nat
  skippedCount : Nat
  nextId : Nat
deriving DecidableEq, Repr

/-- Lines 724-727: the roster importer's student-identity comparison —
locale-aware case-insensitive equality of name and surname. -/
def studentKeyMatches (t : Student) (name surname : String) : Bool :=
  lowerTr t.name == lowerTr name && lowerTr t.surname == lowerTr surname

/-- Lines 719-756: process one parsed roster row against the (already
completed) classroom list: resolve the classroom case-insensitively, then
add the student (with `targetCorrect = 6`), update only the classroom id,
or skip, counting each outcome.  A row whose classroom is not found is
silently ignored. -/
def processStudentRow (tempClasses : List Classroom) (st : RosterState)
    (row : RosterRow) : RosterState :=
  match tempClasses.find?
      (fun c => plainLower c.name == plainLower row.className) with
  | none => st
  | some cls =>
    match st.students.findIdx? (fun t => studentKeyMatches t row.name row.surname) with
    | some idx =>
      match st.students.get? idx with
      | none => st
      | some existing =>
        if existing.classroomId ≠ cls.id then
          { st with
            students := st.students.set idx { existing with classroomId := cls.id }
            updatedCount := st.updatedCount + 1 }
        else { st with skippedCount := st.skippedCount + 1 }
    | none =>
      let ns : Student := ⟨freshId st.nextId, row.name, row.surname, cls.id, some 6⟩
      { st with
        students := st.students ++ [ns]
        nextId := st.nextId + 1
        addedCount := st.addedCount + 1 }

/-- Lines 698-707: create every referenced classroom that has no
case-insensitive match yet (in order of first reference). -/
def ensureClasses (classes : List Classroom) (nid : Nat) :
    List String → List Classroom × Nat
  | [] => (classes, nid)
  | cName :: rest =>
    match classes.find? (fun c => plainLower c.name == plainLower cName) with
    | some _ => ensureClasses classes nid rest
    | none => ensureClasses (classes ++ [⟨freshId nid, cName⟩]) (nid + 1) rest

/- ## Class-reassignment reconciler -/

/-- Working state of the class-reassignment reconciler. -/
structure ReassignState where
  classes : List Classroom
  students : List Student
  updatedCount : Nat
  notFoundCount : Nat
  nextId : Nat
deriving DecidableEq, Repr

/-- Modelled from the spec: the class-reassignment reconciler (spec §4.6)
has no implementation under src/ — the UI wires only the roster importer and
the result importer — so this definition follows the spec's words: resolve or
create the classroom by normalized name; resolve the student strictly by
normalized `(name, surname)` against the existing snapshot only (never
creating students); an unmatched name counts as *not found* and the row is
skipped; a found student whose classroom differs is updated, else the row is
a no-op. -/
def resolveReassignClass (st : ReassignState) (clsName : String) :
    Classroom × List Classroom × Nat :=
  match st.classes.find? (fun c => normTr c.name == normTr clsName) with
  | some c => (c, st.classes, st.nextId)
  | none =>
    let c : Classroom := ⟨freshId st.nextId, clsName⟩
    (c, st.classes ++ [c], st.nextId + 1)

/-- Modelled from the spec: one row of the class-reassignment reconciler
(spec §4.6; see `classReassignImport`). -/
def classReassignRow (st : ReassignState) (row : RosterRow) : ReassignState :=
  let resolved := resolveReassignClass st row.className
  let cls := resolved.1
  let st := { st with classes := resolved.2.1, nextId := resolved.2.2 }
  match st.students.find? (fun s =>
      normTr s.name == normTr row.name && normTr s.surname == normTr row.surname) with
  | none => { st with notFoundCount := st.notFoundCount + 1 }
  | some s =>
    if s.classroomId ≠ cls.id then
      { st with
        students := st.students.map
          (fun t => if t.id == s.id then { t with classroomId := cls.id } else t)
        updatedCount := st.updatedCount + 1 }
    else st

/-- Modelled from the spec: run the class-reassignment reconciler over a list
of parsed rows. -/
def classReassignImport (rows : List RosterRow) (st : ReassignState) :
    ReassignState :=
  rows.foldl classReassignRow st

/-- Modelled from the spec: the `{updated, notFound}` output summary. -/
def reassignSummary (st : ReassignState) : Nat × Nat :=
  (st.updatedCount, st.notFoundCount)

/- ## Properties of the normalizer -/

theorem lowerTrChar_table_fixed :
    ∀ d ∈ trLowerPairs.map Prod.snd, lowerTrChar d = d := by decide

theorem lowerTrChar_table_not_ws :
    ∀ p ∈ trLowerPairs, isWsChar p.1 = false ∧ isWsChar p.2 = false := by decide

theorem lowerTrChar_eq_or_mem (c : Char) :
    lowerTrChar c = c ∨
      ∃ p ∈ trLowerPairs, p.1 = c ∧ lowerTrChar c = p.2 := by
  unfold lowerTrChar
  cases hf : trLowerPairs.find? (fun p => p.1 = c) with
  | none => left; rfl
  | some p =>
    right
    refine ⟨p, List.mem_of_find?_eq_some hf, ?_, rfl⟩
    have := List.find?_some hf
    simpa using this

theorem lowerTrChar_idem (c : Char) :
    lowerTrChar (lowerTrChar c) = lowerTrChar c := by
  rcases lowerTrChar_eq_or_mem c with h | ⟨p, hp, _, he⟩
  · rw [h, h]
  · rw [he]
    exact lowerTrChar_table_fixed p.2 (List.mem_map_of_mem Prod.snd hp)

theorem isWsChar_lowerTrChar (c : Char) :
    isWsChar (lowerTrChar c) = isWsChar c := by
  rcases lowerTrChar_eq_or_mem c with h | ⟨p, hp, h1, he⟩
  · rw [h]
  · rw [he, ← h1]
    have := lowerTrChar_table_not_ws p hp
    rw [this.1, this.2]

theorem dropWhile_head_false {p : Char → Bool} :
    ∀ (l : List Char) (c : Char), (l.dropWhile p).head? = some c → p c = false := by
  intro l
  induction l with
  | nil => intro c h; simp [List.dropWhile] at h
  | cons a l ih =>
    intro c h
    by_cases ha : p a
    · rw [List.dropWhile_cons_of_pos ha] at h
      exact ih c h
    · rw [List.dropWhile_cons_of_neg ha] at h
      simp at h
      rw [← h]
      simpa using ha

theorem dropWhile_eq_self_of_head {p : Char → Bool} {l : List Char}
    (h : ∀ c, l.head? = some c → p c = false) : l.dropWhile p = l := by
  cases l with
  | nil => rfl
  | cons a t =>
    have := h a rfl
    simp [List.dropWhile_cons, this]

theorem dropWhile_map_comm {p : Char → Bool} {f : Char → Char}
    (hf : ∀ c, p (f c) = p c) :
    ∀ l : List Char, (l.map f).dropWhile p = (l.dropWhile p).map f := by
  intro l
  induction l with
  | nil => rfl
  | cons a t ih =>
    by_cases ha : p a
    · have hfa : p (f a) = true := by rw [hf]; exact ha
      simp [List.dropWhile_cons, ha, hfa, ih]
    · have hfa : p (f a) = false := by rw [hf]; simpa using ha
      simp [List.dropWhile_cons, ha, hfa]

theorem trimChars_eq (l : List Char) :
    trimChars l = List.rdropWhile isWsChar (l.dropWhile isWsChar) := rfl

theorem trimChars_idem (l : List Char) : trimChars (trimChars l) = trimChars l := by
  rw [trimChars_eq, trimChars_eq]
  have h1 : (List.rdropWhile isWsChar (l.dropWhile isWsChar)).dropWhile isWsChar
      = List.rdropWhile isWsChar (l.dropWhile isWsChar) := by
    apply dropWhile_eq_self_of_head
    intro c hc
    obtain ⟨t, ht⟩ := List.rdropWhile_prefix isWsChar (l.dropWhile isWsChar)
    apply dropWhile_head_false (p := isWsChar) l c
    rw [← ht]
    cases hr : List.rdropWhile isWsChar (l.dropWhile isWsChar) with
    | nil => rw [hr] at hc; simp at hc
    | cons a r =>
      rw [hr] at hc
      simp at hc
      rw [← hc]
      rfl
  rw [h1, List.rdropWhile_idempotent]

theorem trimChars_map (l : List Char) :
    trimChars (l.map lowerTrChar) = (trimChars l).map lowerTrChar := by
  unfold trimChars
  rw [dropWhile_map_comm isWsChar_lowerTrChar, ← List.map_reverse,
    dropWhile_map_comm isWsChar_lowerTrChar, ← List.map_reverse]

theorem normTr_data (s : String) :
    (normTr s).data = (trimChars s.data).map lowerTrChar := rfl

theorem normTr_idempotent (s : String) : normTr (normTr s) = normTr s := by
  apply String.ext
  show (trimChars ((trimChars s.data).map lowerTrChar)).map lowerTrChar
      = (trimChars s.data).map lowerTrChar
  rw [trimChars_map, trimChars_idem, List.map_map]
  apply List.map_congr_left
  intro c _
  simp only [Function.comp_apply]
  exact lowerTrChar_idem c

/- ## Claim C5 — behavior of the identity normalizer -/

/-- C5 counterexample: the claim asserts that the normalizer collapses
internal whitespace runs, in particular `normalize("Ali   Veli") =
normalize("Ali Veli")`; the source's `norm` only trims and lowercases, so
the two normalize to different strings. -/
theorem c5_counterexample : ¬ (normTr "Ali   Veli" = normTr "Ali Veli") := by
  decide

/-- C5 (amended): `norm` is idempotent and equates Turkish-locale case
variants (`"Ahmet YILMAZ"` vs `"ahmet yılmaz"`), but it does **not** collapse
internal whitespace runs: `normTr "Ali   Veli" ≠ normTr "Ali Veli"`. -/
theorem c5_normalizer_properties :
    (∀ s : String, normTr (normTr s) = normTr s) ∧
      normTr "Ahmet YILMAZ" = normTr "ahmet yılmaz" ∧
      normTr "Ali   Veli" ≠ normTr "Ali Veli" :=
  ⟨normTr_idempotent, by decide, by decide⟩

/- ## Claim C7 — the net-score formula -/

/-- C7: for naturals `c + i ≤ 10` the net-score calculator returns the exact
value `c − 0.33·i` (which already has two decimals, so rounding is the
identity), and the three cited examples hold:
`calculateNet 8 2 = 7.34`, `calculateNet 10 0 = 10`,
`calculateNet 0 10 = −3.3`. -/
theorem round2_of_int (x : ℚ) (z : ℤ) (h : x * 100 = (z : ℚ)) :
    round2 x = (z : ℚ) / 100 := by
  unfold round2
  rw [h, round_intCast]

theorem c7_calculateNet_formula :
    (∀ c i : ℕ, c + i ≤ 10 →
        calculateNet (c : ℚ) (i : ℚ) = (c : ℚ) - 33 / 100 * (i : ℚ)) ∧
      calculateNet 8 2 = 367 / 50 ∧
      calculateNet 10 0 = 10 ∧
      calculateNet 0 10 = -(33 / 10) := by
  refine ⟨?_, ?_, ?_, ?_⟩
  · intro c i _
    unfold calculateNet
    rw [round2_of_int _ (100 * (c : ℤ) - 33 * (i : ℤ)) (by push_cast; ring)]
    push_cast
    ring
  · unfold calculateNet
    rw [round2_of_int _ 734 (by norm_num)]
    norm_num
  · unfold calculateNet
    rw [round2_of_int _ 1000 (by norm_num)]
    norm_num
  · unfold calculateNet
    rw [round2_of_int _ (-330) (by norm_num)]
    norm_num

/-- C7 witness: the general formula applied at `c = 8`, `i = 2`. -/
theorem c7_calculateNet_formula_witness :
    (8 : ℕ) + 2 ≤ 10 ∧
      calculateNet ((8 : ℕ) : ℚ) ((2 : ℕ) : ℚ)
        = ((8 : ℕ) : ℚ) - 33 / 100 * ((2 : ℕ) : ℚ) :=
  ⟨by norm_num, c7_calculateNet_formula.1 8 2 (by norm_num)⟩

/- ## Claim C10 — fetchAllData error behavior -/

/-- C10: if any of the four collection reads fails, `fetchAllData` still
returns a value (the `catch` swallows the error) and that value has all four
collections empty. -/
theorem c10_fetchAllData_empty_on_error
    (rs : Except String (List Student)) (rc : Except String (List Classroom))
    (re : Except String (List ExamResult))
    (rd : Except String (List ExamDefinition))
    (h : rs.isOk = false ∨ rc.isOk = false ∨ re.isOk = false ∨
      rd.isOk = false) :
    fetchAllData rs rc re rd = ⟨[], [], [], []⟩ := by
  cases rs <;> cases rc <;> cases re <;> cases rd <;>
    simp_all [fetchAllData, Except.isOk, Except.toBool]

/-- C10 witness: a failing students read with the other three succeeding. -/
theorem c10_fetchAllData_empty_on_error_witness :
    (Except.error "offline" : Except String (List Student)).isOk = false ∧
      fetchAllData (Except.error "offline") (Except.ok []) (Except.ok [])
        (Except.ok []) = ⟨[], [], [], []⟩ :=
  ⟨rfl, c10_fetchAllData_empty_on_error _ _ _ _ (Or.inl rfl)⟩

/- ## Claim C1 — unresolved exam names -/

/-- Concrete snapshot for the C1 counterexample: no exam definitions, one
student, no results. -/
def c1snap : Snapshot :=
  ⟨[], [⟨"s1", "Ali", "Veli", "c1", none⟩], [], 0, "2024-01-01"⟩

/-- C1 counterexample: a tab-separated result row naming the exam
`"Yeni Deneme"`, which matches no definition in the snapshot, does **not**
produce zero writes: the import creates an `ExamDefinition` named
`"Yeni Deneme"` and stores a result row (and the state has no unresolved-exam
set at all), contradicting the claim at this input. -/
theorem c1_counterexample :
    (runResultImport "Yeni Deneme\tAli Veli\t8\t2" c1snap).examDefs.map
        (fun e => e.name) = ["Yeni Deneme"] ∧
      (runResultImport "Yeni Deneme\tAli Veli\t8\t2" c1snap).addedCount = 1 ∧
      (runResultImport "Yeni Deneme\tAli Veli\t8\t2" c1snap).skippedCount = 0 := by
  refine ⟨by decide, by decide, by decide⟩

/-- C1 (amended): when the exam name resolves to no definition under
normalized equality, the reconciler **creates** a new `ExamDefinition` named
`examNameStr` (appending it to the snapshot) whenever `examNameStr` is
nonempty, and only skips the row when `examNameStr` is empty; no
unresolved-exam set is recorded anywhere. -/
theorem c1_unknown_exam_creates_definition (defs : List ExamDefinition)
    (nm today : String) (nid : Nat)
    (hnone : defs.find? (fun e => normTr e.name == normTr nm) = none) :
    (0 < jsLen nm →
      resolveExam defs nm today nid =
        some (⟨freshId nid, nm, today⟩, defs ++ [⟨freshId nid, nm, today⟩],
          nid + 1)) ∧
      (jsLen nm = 0 → resolveExam defs nm today nid = none) := by
  constructor
  · intro h
    simp [resolveExam, hnone, h]
  · intro h
    simp [resolveExam, hnone, h]

/-- C1 witness: the amended theorem applied to an empty definition list and
the nonempty exam name `"X"`. -/
theorem c1_unknown_exam_creates_definition_witness :
    ([] : List ExamDefinition).find?
        (fun e => normTr e.name == normTr "X") = none ∧
      0 < jsLen "X" ∧
      resolveExam [] "X" "2024-01-01" 0 =
        some (⟨freshId 0, "X", "2024-01-01"⟩,
          [⟨freshId 0, "X", "2024-01-01"⟩], 1) :=
  ⟨rfl, by decide,
    (c1_unknown_exam_creates_definition [] "X" "2024-01-01" 0 rfl).1 (by decide)⟩

/- ## Claim C4 — merged-field disambiguation -/

theorem mem_insertDescLen {x e : ExamDefinition} :
    ∀ {ds : List ExamDefinition}, x ∈ insertDescLen e ds ↔ x = e ∨ x ∈ ds := by
  intro ds
  induction ds with
  | nil => simp [insertDescLen]
  | cons d t ih =>
    rw [insertDescLen]
    split_ifs with h
    · simp
    · simp [ih]
      tauto

theorem mem_sortDescLen {x : ExamDefinition} :
    ∀ {l : List ExamDefinition}, x ∈ sortDescLen l ↔ x ∈ l := by
  intro l
  induction l with
  | nil => simp [sortDescLen]
  | cons d t ih =>
    rw [sortDescLen, mem_insertDescLen, ih]
    simp

theorem pairwise_insertDescLen {e : ExamDefinition} :
    ∀ {ds : List ExamDefinition},
      ds.Pairwise (fun a b => b.name.data.length ≤ a.name.data.length) →
      (insertDescLen e ds).Pairwise
        (fun a b => b.name.data.length ≤ a.name.data.length) := by
  intro ds
  induction ds with
  | nil => intro _; simp [insertDescLen]
  | cons d t ih =>
    intro hp
    rw [List.pairwise_cons] at hp
    rw [insertDescLen]
    split_ifs with h
    · refine List.Pairwise.cons ?_ (List.Pairwise.cons hp.1 hp.2)
      intro x hx
      rw [List.mem_cons] at hx
      rcases hx with rfl | hx
      · exact h
      · exact le_trans (hp.1 x hx) h
    · refine List.Pairwise.cons ?_ (ih hp.2)
      intro x hx
      rcases mem_insertDescLen.mp hx with rfl | hx
      · omega
      · exact hp.1 x hx

theorem pairwise_sortDescLen :
    ∀ (l : List ExamDefinition),
      (sortDescLen l).Pairwise
        (fun a b => b.name.data.length ≤ a.name.data.length) := by
  intro l
  induction l with
  | nil => simp [sortDescLen]
  | cons d t ih =>
    rw [sortDescLen]
    exact pairwise_insertDescLen ih

/-- `find?` on a list sorted by weakly decreasing name length returns a match
such that every strictly longer element fails the predicate. -/
theorem find_sorted_longest {p : ExamDefinition → Bool} :
    ∀ {l : List ExamDefinition} {e : ExamDefinition},
      l.Pairwise (fun a b => b.name.data.length ≤ a.name.data.length) →
      l.find? p = some e →
      ∀ d ∈ l, e.name.data.length < d.name.data.length → p d = false := by
  intro l
  induction l with
  | nil => intro e _ h; simp at h
  | cons a t ih =>
    intro e hp hf d hd hlen
    rw [List.pairwise_cons] at hp
    rw [List.mem_cons] at hd
    by_cases ha : p a
    · rw [List.find?_cons_of_pos _ ha] at hf
      injection hf with hf
      subst hf
      rcases hd with rfl | hd
      · exact absurd hlen (by omega)
      · exact absurd (hp.1 d hd) (by omega)
    · rw [List.find?_cons_of_neg _ ha] at hf
      rcases hd with rfl | hd
      · simpa using ha
      · exact ih hp.2 hf d hd hlen

/-- Concrete snapshot for the C4 counterexample: one exam definition whose
name is not a prefix of the merged field, one student whose name is a suffix
of it. -/
def c4snap : Snapshot :=
  ⟨[⟨"d1", "Kurumsal", "2024-01-01"⟩], [⟨"s1", "Ali", "Veli", "c1", none⟩],
    [], 0, "2024-01-01"⟩

/-- C4 counterexample: in the whitespace-merged row `"Deneme 3 Ali Veli 8 2"`
no exam definition's name (`"Kurumsal"`) is a prefix of the merged field, yet
the row is **not** recorded as an unresolved-exam skip: the student-suffix
fallback identifies `"Ali Veli"`, a new exam definition `"Deneme 3"` is
created, and a result row is stored (`added = 1`, `skipped = 0`). -/
theorem c4_counterexample :
    jsStartsWith (lowerTr "Deneme 3 Ali Veli")
        (lowerTr ("Kurumsal" : String)) = false ∧
      (runResultImport "Deneme 3 Ali Veli 8 2" c4snap).addedCount = 1 ∧
      (runResultImport "Deneme 3 Ali Veli 8 2" c4snap).skippedCount = 0 ∧
      (runResultImport "Deneme 3 Ali Veli 8 2" c4snap).examDefs.map
        (fun e => e.name) = ["Kurumsal", "Deneme 3"] := by
  refine ⟨by decide, by decide, by decide, by decide⟩

/-- C4 (amended): for a merged whitespace-path field, the reconciler sorts
the known exam definitions by decreasing name length and accepts the first
whose Turkish-lowercased name is a prefix of the lowercased merged field —
so every strictly longer definition fails the prefix test — taking the
remainder after stripping that prefix (trimmed) as the student name.  When
**no** definition's name is such a prefix, the row is **not** recorded as an
unresolved-exam skip: the reconciler first tries the student-name-suffix
fallback, and only when that also fails is the row skipped (with only the
skip counter recording it; no unresolved-exam set exists). -/
theorem c4_merged_field_heuristic (st : BatchState) (mixedStr : String) :
    (∀ e, (sortDescLen st.examDefs).find?
        (fun e => jsStartsWith (lowerTr mixedStr) (lowerTr e.name)) = some e →
      resolveNames st [mixedStr] =
        (sortDescLen st.examDefs,
          some (e.name, jsTrim (jsDrop mixedStr (jsLen e.name)))) ∧
      ∀ d ∈ st.examDefs, jsLen e.name < jsLen d.name →
        jsStartsWith (lowerTr mixedStr) (lowerTr d.name) = false) ∧
    ((sortDescLen st.examDefs).find?
        (fun e => jsStartsWith (lowerTr mixedStr) (lowerTr e.name)) = none →
      (∀ s, st.students.find? (suffixFallback mixedStr) = some s →
        resolveNames st [mixedStr] =
          (sortDescLen st.examDefs,
            some (jsTrim (jsTake mixedStr
                (jsLen mixedStr - jsLen (fallbackName mixedStr s))),
              fallbackName mixedStr s))) ∧
      (st.students.find? (suffixFallback mixedStr) = none →
        ∀ c i : Int, processRow st [mixedStr] c i =
          { st with
            examDefs := sortDescLen st.examDefs
            skippedCount := st.skippedCount + 1 })) := by
  constructor
  · intro e hf
    constructor
    · simp [resolveNames, hf]
    · intro d hd hlen
      exact find_sorted_longest (pairwise_sortDescLen st.examDefs) hf d
        (mem_sortDescLen.mpr hd) hlen
  · intro hnone
    constructor
    · intro s hs
      simp [resolveNames, hnone, hs]
    · intro hs c i
      simp [processRow, resolveNames, hnone, hs]

/-- C4 witness: the prefix branch of the amended theorem at a concrete
state — definition `"LGS"` is a prefix of the merged field
`"LGS Ali Veli"`, so the names resolve to `("LGS", "Ali Veli")`. -/
theorem c4_merged_field_heuristic_witness :
    ((sortDescLen (mkBatchState ⟨[⟨"d1", "LGS", "2024-01-01"⟩], [], [], 0,
        "2024-01-01"⟩).examDefs).find?
      (fun e => jsStartsWith (lowerTr "LGS Ali Veli") (lowerTr e.name)) =
        some ⟨"d1", "LGS", "2024-01-01"⟩) ∧
      resolveNames (mkBatchState ⟨[⟨"d1", "LGS", "2024-01-01"⟩], [], [], 0,
          "2024-01-01"⟩) ["LGS Ali Veli"] =
        (sortDescLen (mkBatchState ⟨[⟨"d1", "LGS", "2024-01-01"⟩], [], [], 0,
          "2024-01-01"⟩).examDefs,
          some ("LGS", jsTrim (jsDrop "LGS Ali Veli" (jsLen ("LGS" : String))))) :=
  ⟨by decide,
    ((c4_merged_field_heuristic (mkBatchState ⟨[⟨"d1", "LGS", "2024-01-01"⟩],
      [], [], 0, "2024-01-01"⟩) "LGS Ali Veli").1
      ⟨"d1", "LGS", "2024-01-01"⟩ (by decide)).1⟩

/- ## Claim C8 — roster upsert -/

theorem findIdxq_some_get {α : Type} {p : α → Bool} :
    ∀ (l : List α) (i : Nat), l.findIdx? p = some i →
      ∃ x, l.get? i = some x ∧ p x = true := by
  intro l
  induction l with
  | nil => intro i h; simp at h
  | cons a t ih =>
    intro i h
    rw [List.findIdx?_cons] at h
    by_cases ha : p a
    · simp [ha] at h
      subst h
      exact ⟨a, rfl, ha⟩
    · simp [ha] at h
      obtain ⟨j, hj, hji⟩ := h
      obtain ⟨x, hx, hpx⟩ := ih j hj
      subst hji
      exact ⟨x, by simpa using hx, hpx⟩

theorem findIdxq_append_right {α : Type} {p : α → Bool} :
    ∀ (l : List α) (x : α), l.findIdx? p = none → p x = true →
      (l ++ [x]).findIdx? p = some l.length := by
  intro l
  induction l with
  | nil => intro x _ hx; simp [List.findIdx?_cons, hx]
  | cons a t ih =>
    intro x h hx
    rw [List.findIdx?_cons] at h
    by_cases ha : p a
    · simp [ha] at h
    · simp [ha] at h
      rw [List.cons_append, List.findIdx?_cons]
      simp [ha]
      exact Or.inr ⟨h, hx⟩

theorem findIdxq_set {α : Type} {p : α → Bool} :
    ∀ (l : List α) (i : Nat) (x : α), l.findIdx? p = some i →
      p x = true → (l.set i x).findIdx? p = some i := by
  intro l
  induction l with
  | nil => intro i x h _; simp at h
  | cons a t ih =>
    intro i x h hx
    rw [List.findIdx?_cons] at h
    by_cases ha : p a
    · simp [ha] at h
      subst h
      simp [List.set, List.findIdx?_cons, hx]
    · simp [ha] at h
      obtain ⟨j, hj, hji⟩ := h
      subst hji
      show (a :: t.set j x).findIdx? p = some (j + 1)
      rw [List.findIdx?_cons]
      simp [ha, ih j x hj hx]

/-- C8: roster-row upsert trichotomy, and idempotence of a repeated row.
With the row's classroom resolving to `cls`: a row with no student match
appends exactly one new student with classroom `cls.id` and
`targetCorrect = 6` and counts *added*; a match with a different classroom
updates only that student's classroom id in place (no student is created)
and counts *updated*; a match with the same classroom changes nothing but
the *skipped* counter.  Processing the same row twice leaves the student
list of the first pass unchanged and counts exactly one extra *skipped*. -/
theorem c8_roster_row_upsert (tempClasses : List Classroom) (st : RosterState)
    (row : RosterRow) (cls : Classroom)
    (hcls : tempClasses.find?
      (fun c => plainLower c.name == plainLower row.className) = some cls) :
    (st.students.findIdx?
        (fun t => studentKeyMatches t row.name row.surname) = none →
      processStudentRow tempClasses st row =
        { st with
          students := st.students ++
            [⟨freshId st.nextId, row.name, row.surname, cls.id, some 6⟩]
          nextId := st.nextId + 1
          addedCount := st.addedCount + 1 }) ∧
    (∀ idx ex, st.students.findIdx?
        (fun t => studentKeyMatches t row.name row.surname) = some idx →
      st.students.get? idx = some ex → ex.classroomId ≠ cls.id →
      processStudentRow tempClasses st row =
        { st with
          students := st.students.set idx { ex with classroomId := cls.id }
          updatedCount := st.updatedCount + 1 }) ∧
    (∀ idx ex, st.students.findIdx?
        (fun t => studentKeyMatches t row.name row.surname) = some idx →
      st.students.get? idx = some ex → ex.classroomId = cls.id →
      processStudentRow tempClasses st row =
        { st with skippedCount := st.skippedCount + 1 }) ∧
    ((processStudentRow tempClasses
        (processStudentRow tempClasses st row) row).students =
      (processStudentRow tempClasses st row).students ∧
     (processStudentRow tempClasses
        (processStudentRow tempClasses st row) row).skippedCount =
      (processStudentRow tempClasses st row).skippedCount + 1) := by
  have hmatch : ∀ (nm : String) (sn : String) (cid : String) (tc : Option Int)
      (i : String), studentKeyMatches ⟨i, nm, sn, cid, tc⟩ nm sn = true := by
    intro nm sn cid tc i
    simp [studentKeyMatches]
  refine ⟨?_, ?_, ?_, ?_⟩
  · intro hnone
    simp [processStudentRow, hcls, hnone]
  · intro idx ex hidx hget hne
    rw [List.get?_eq_getElem?] at hget
    simp [processStudentRow, hcls, hidx, hget, hne]
  · intro idx ex hidx hget heq
    rw [List.get?_eq_getElem?] at hget
    simp [processStudentRow, hcls, hidx, hget, heq]
  · cases hfi : st.students.findIdx?
        (fun t => studentKeyMatches t row.name row.surname) with
    | none =>
      have hp : studentKeyMatches
          (⟨freshId st.nextId, row.name, row.surname, cls.id, some 6⟩ : Student)
          row.name row.surname = true := hmatch _ _ _ _ _
      have h2 := findIdxq_append_right st.students _ hfi hp
      have h3 := List.getElem?_concat_length st.students
        (⟨freshId st.nextId, row.name, row.surname, cls.id, some 6⟩ : Student)
      constructor <;> simp [processStudentRow, hcls, hfi, h2, h3]
    | some idx =>
      obtain ⟨ex, hget, hpex⟩ := findIdxq_some_get st.students idx hfi
      have hlt : idx < st.students.length := by
        rcases List.get?_eq_some.mp hget with ⟨hl, _⟩
        exact hl
      rw [List.get?_eq_getElem?] at hget
      by_cases hne : ex.classroomId = cls.id
      · constructor <;> simp [processStudentRow, hcls, hfi, hget, hne]
      · have hpupd : studentKeyMatches { ex with classroomId := cls.id }
            row.name row.surname = true := hpex
        have h2 : (st.students.set idx
            { ex with classroomId := cls.id }).findIdx?
              (fun t => studentKeyMatches t row.name row.surname) = some idx :=
          findIdxq_set st.students idx _ hfi hpupd
        have h3 : (st.students.set idx
            { ex with classroomId := cls.id })[idx]? =
              some { ex with classroomId := cls.id } :=
          List.getElem?_set_eq_of_lt _ hlt
        constructor <;>
          simp [processStudentRow, hcls, hfi, hget, hne, h2, h3]

/-- C8 witness: re-importing `"Ali Veli 8/A"` when Ali Veli already sits in
another classroom updates only the classroom id and counts one *updated*. -/
theorem c8_roster_row_upsert_witness :
    ([⟨"cA", "8/A"⟩] : List Classroom).find?
        (fun c => plainLower c.name == plainLower ("8/A" : String)) =
      some ⟨"cA", "8/A"⟩ ∧
    processStudentRow [⟨"cA", "8/A"⟩]
        ⟨[⟨"s1", "Ali", "Veli", "cB", none⟩], 0, 0, 0, 0⟩ ⟨"Ali", "Veli", "8/A"⟩ =
      ⟨[⟨"s1", "Ali", "Veli", "cA", none⟩], 0, 1, 0, 0⟩ := by
  refine ⟨by decide, ?_⟩
  have h := (c8_roster_row_upsert [⟨"cA", "8/A"⟩]
    ⟨[⟨"s1", "Ali", "Veli", "cB", none⟩], 0, 0, 0, 0⟩ ⟨"Ali", "Veli", "8/A"⟩
    ⟨"cA", "8/A"⟩ (by decide)).2.1 0 ⟨"s1", "Ali", "Veli", "cB", none⟩
    (by decide) rfl (by decide)
  simpa using h

/- ## Claim C9 — class-reassignment reconciler -/

theorem classReassignRow_students_ids (st : ReassignState) (row : RosterRow) :
    (classReassignRow st row).students.map (fun s => s.id) =
      st.students.map (fun s => s.id) := by
  unfold classReassignRow
  cases hf : st.students.find? (fun s =>
      normTr s.name == normTr row.name &&
      normTr s.surname == normTr row.surname) with
  | none => simp [hf]
  | some s =>
    by_cases hne : s.classroomId ≠ (resolveReassignClass st row.className).1.id
    · simp only [hf]
      rw [if_pos hne]
      simp only [List.map_map]
      apply List.map_congr_left
      intro t _
      by_cases ht : t.id = s.id <;> simp [ht]
    · simp only [hf]
      rw [if_neg hne]

/-- C9 (spec-modelled): the class-reassignment reconciler never creates a
student (the ids of the student list are unchanged by a whole import); an
unmatched row only increments the *notFound* counter; a matched row whose
classroom differs updates exactly that student's classroom id and counts
*updated*; a matched row with the same classroom changes neither students nor
counters; and the output summary is the pair `(updated, notFound)`. -/
theorem c9_class_reassignment (rows : List RosterRow) (st : ReassignState)
    (row : RosterRow) :
    ((classReassignImport rows st).students.map (fun s => s.id) =
      st.students.map (fun s => s.id)) ∧
    (st.students.find? (fun s =>
        normTr s.name == normTr row.name &&
        normTr s.surname == normTr row.surname) = none →
      (classReassignRow st row).students = st.students ∧
      (classReassignRow st row).notFoundCount = st.notFoundCount + 1 ∧
      (classReassignRow st row).updatedCount = st.updatedCount) ∧
    (∀ s, st.students.find? (fun s =>
        normTr s.name == normTr row.name &&
        normTr s.surname == normTr row.surname) = some s →
      s.classroomId ≠ (resolveReassignClass st row.className).1.id →
      (classReassignRow st row).students = st.students.map (fun t =>
        if t.id == s.id then
          { t with classroomId := (resolveReassignClass st row.className).1.id }
        else t) ∧
      (classReassignRow st row).updatedCount = st.updatedCount + 1 ∧
      (classReassignRow st row).notFoundCount = st.notFoundCount) ∧
    (∀ s, st.students.find? (fun s =>
        normTr s.name == normTr row.name &&
        normTr s.surname == normTr row.surname) = some s →
      s.classroomId = (resolveReassignClass st row.className).1.id →
      (classReassignRow st row).students = st.students ∧
      (classReassignRow st row).updatedCount = st.updatedCount ∧
      (classReassignRow st row).notFoundCount = st.notFoundCount) ∧
    reassignSummary (classReassignImport rows st) =
      ((classReassignImport rows st).updatedCount,
        (classReassignImport rows st).notFoundCount) := by
  refine ⟨?_, ?_, ?_, ?_, rfl⟩
  · unfold classReassignImport
    induction rows generalizing st with
    | nil => rfl
    | cons r t ih =>
      rw [List.foldl_cons]
      rw [ih (classReassignRow st r), classReassignRow_students_ids]
  · intro hf
    refine ⟨?_, ?_, ?_⟩ <;> simp [classReassignRow, hf]
  · intro s hf hne
    refine ⟨?_, ?_, ?_⟩ <;> simp [classReassignRow, hf, hne]
  · intro s hf heq
    refine ⟨?_, ?_, ?_⟩ <;> simp [classReassignRow, hf, heq]

/-- C9 witness: a one-row import whose student name matches nobody in the
snapshot is counted *not found*, creates no student, and the summary is
`(0, 1)`. -/
theorem c9_class_reassignment_witness :
    (([⟨"s1", "Ali", "Veli", "cA", none⟩] : List Student).find? (fun s =>
        normTr s.name == normTr ("Mehmet" : String) &&
        normTr s.surname == normTr ("Can" : String)) = none) ∧
    (classReassignRow ⟨[⟨"cA", "8/A"⟩], [⟨"s1", "Ali", "Veli", "cA", none⟩],
        0, 0, 0⟩ ⟨"Mehmet", "Can", "8/A"⟩).students =
      [⟨"s1", "Ali", "Veli", "cA", none⟩] ∧
    (classReassignRow ⟨[⟨"cA", "8/A"⟩], [⟨"s1", "Ali", "Veli", "cA", none⟩],
        0, 0, 0⟩ ⟨"Mehmet", "Can", "8/A"⟩).notFoundCount = 1 := by
  have h := (c9_class_reassignment [] ⟨[⟨"cA", "8/A"⟩],
    [⟨"s1", "Ali", "Veli", "cA", none⟩], 0, 0, 0⟩
    ⟨"Mehmet", "Can", "8/A"⟩).2.1 (by decide)
  exact ⟨by decide, h.1, h.2.1⟩

/- ## Claim C6 — trailing-score validation -/

theorem mem_set_self {α : Type} (l : List α) (i : Nat) (x : α)
    (h : i < l.length) : x ∈ l.set i x := by
  have h2 : (l.set i x).get? i = some x := by
    rw [List.get?_eq_getElem?]
    exact List.getElem?_set_eq_of_lt _ h
  exact List.get?_mem h2

/-- Behavior of `upsertResult` relevant to score validation: the skip counter
never moves, exactly one of added/updated moves, and the stored row carries
the validated scores with `empty = 10 − (correct + incorrect)` and status
`ATTENDED`. -/
theorem upsertResult_stores (st : BatchState) (student : Student)
    (examDef : ExamDefinition) (c i : Int) :
    (upsertResult st student examDef c i).skippedCount = st.skippedCount ∧
    (upsertResult st student examDef c i).addedCount +
        (upsertResult st student examDef c i).updatedCount =
      st.addedCount + st.updatedCount + 1 ∧
    ∃ r ∈ (upsertResult st student examDef c i).results,
      r.studentId = student.id ∧ r.examId = some examDef.id ∧
      r.correct = c ∧ r.incorrect = i ∧ r.empty = 10 - (c + i) ∧
      r.status = some ResStatus.attended := by
  cases hf : st.results.find?
      (fun r => r.studentId == student.id && r.examId == some examDef.id) with
  | none =>
    have he : upsertResult st student examDef c i =
        { st with
          results := st.results ++
            [⟨freshId st.nextId, student.id, some examDef.id, examDef.name,
              examDef.date, c, i, 10 - (c + i), calculateNet (c : ℚ) (i : ℚ),
              some ResStatus.attended⟩]
          nextId := st.nextId + 1
          addedCount := st.addedCount + 1 } := by
      simp only [upsertResult, hf]
    rw [he]
    refine ⟨rfl, by dsimp only; omega, ?_⟩
    exact ⟨⟨freshId st.nextId, student.id, some examDef.id, examDef.name,
      examDef.date, c, i, 10 - (c + i), calculateNet (c : ℚ) (i : ℚ),
      some ResStatus.attended⟩, by simp, rfl, rfl, rfl, rfl, rfl, rfl⟩
  | some ex =>
    have hex : ex ∈ st.results := List.mem_of_find?_eq_some hf
    have hnone : st.results.findIdx? (fun r => r.id == ex.id) ≠ none := by
      intro hcon
      rw [List.findIdx?_eq_none_iff] at hcon
      have := hcon ex hex
      simp at this
    cases hidx : st.results.findIdx? (fun r => r.id == ex.id) with
    | none => exact absurd hidx hnone
    | some idx =>
      obtain ⟨x, hget, _⟩ := findIdxq_some_get st.results idx hidx
      have hlt : idx < st.results.length := by
        rcases List.get?_eq_some.mp hget with ⟨hl, _⟩
        exact hl
      have he : upsertResult st student examDef c i =
          { st with
            results := st.results.set idx
              ⟨ex.id, student.id, some examDef.id, examDef.name,
                examDef.date, c, i, 10 - (c + i),
                calculateNet (c : ℚ) (i : ℚ), some ResStatus.attended⟩
            updatedCount := st.updatedCount + 1 } := by
        simp only [upsertResult, hf, hidx]
      rw [he]
      refine ⟨rfl, by dsimp only; omega, ?_⟩
      exact ⟨⟨ex.id, student.id, some examDef.id, examDef.name,
        examDef.date, c, i, 10 - (c + i), calculateNet (c : ℚ) (i : ℚ),
        some ResStatus.attended⟩, mem_set_self _ _ _ hlt,
        rfl, rfl, rfl, rfl, rfl, rfl⟩

/-- C6: with the line splitting into name fields followed by the two trailing
score fields, the row is rejected — only the skip counter moves — exactly
when a trailing field fails integer parsing or the parsed scores sum above
10; when both parse with sum at most 10 and exam and student resolve, the row
is accepted: nothing is skipped, exactly one result row is added or updated,
and it stores `empty = 10 − (correct + incorrect)` (so sum 10 gives
`empty = 0`) with status `ATTENDED`. -/
theorem c6_score_validation (line : String) (st : BatchState)
    (ps : List String) (cstr istr : String)
    (hsplit : splitResultLine line = ps ++ [cstr, istr]) :
    ((parseIntJS cstr = none ∨ parseIntJS istr = none ∨
        (∃ c i : Int, parseIntJS cstr = some c ∧ parseIntJS istr = some i ∧
          10 < c + i)) →
      processLine st line = { st with skippedCount := st.skippedCount + 1 }) ∧
    (∀ (c i : Int) (defs' : List ExamDefinition) (en sn : String)
        (examDef : ExamDefinition) (defs'' : List ExamDefinition) (nid' : Nat)
        (stu : Student),
      parseIntJS cstr = some c → parseIntJS istr = some i → c + i ≤ 10 →
      ps ≠ [] →
      resolveNames st ps = (defs', some (en, sn)) →
      resolveExam defs' en st.today st.nextId = some (examDef, defs'', nid') →
      resolveStudent st.students sn = some stu →
      (processLine st line).skippedCount = st.skippedCount ∧
      (processLine st line).addedCount + (processLine st line).updatedCount =
        st.addedCount + st.updatedCount + 1 ∧
      ∃ r ∈ (processLine st line).results,
        r.studentId = stu.id ∧ r.examId = some examDef.id ∧
        r.correct = c ∧ r.incorrect = i ∧ r.empty = 10 - (c + i) ∧
        r.status = some ResStatus.attended) := by
  have hlast : (ps ++ [cstr, istr]).getLastD "" = istr := by
    rw [show ps ++ [cstr, istr] = (ps ++ [cstr]) ++ [istr] by simp]
    exact List.getLastD_concat _ _ _
  have hdrop : (ps ++ [cstr, istr]).dropLast = ps ++ [cstr] := by
    rw [show ps ++ [cstr, istr] = (ps ++ [cstr]) ++ [istr] by simp]
    exact List.dropLast_concat
  have hlast2 : (ps ++ [cstr]).getLastD "" = cstr := List.getLastD_concat _ _ _
  have hdrop2 : (ps ++ [cstr]).dropLast = ps := List.dropLast_concat
  constructor
  · intro hrej
    by_cases hps : 3 ≤ (ps ++ [cstr, istr]).length
    · unfold processLine
      rw [hsplit, if_pos hps]
      dsimp only
      rw [hlast, hdrop, hlast2, hdrop2]
      rcases hrej with hc | hi | ⟨c, i, hc, hi, hsum⟩
      · rw [hc]
      · rw [hi]
        cases parseIntJS cstr <;> rfl
      · rw [hc, hi]
        dsimp only
        rw [if_pos hsum]
    · unfold processLine
      rw [hsplit, if_neg hps]
  · intro c i defs' en sn examDef defs'' nid' stu hc hi hsum hne hres hexam hstu
    have hps : 3 ≤ (ps ++ [cstr, istr]).length := by
      cases ps with
      | nil => exact absurd rfl hne
      | cons a t => simp
    have hline : processLine st line = processRow st ps c i := by
      unfold processLine
      rw [hsplit, if_pos hps]
      dsimp only
      rw [hlast, hdrop, hlast2, hdrop2, hc, hi]
      dsimp only
      rw [if_neg (by omega)]
    have hrow : processRow st ps c i =
        upsertResult
          { st with
            examDefs := defs''
            nextId := nid'
            processed := (trackParticipation st.processed st.involved
              examDef.id stu.id stu.classroomId).1
            involved := (trackParticipation st.processed st.involved
              examDef.id stu.id stu.classroomId).2 }
          stu examDef c i := by
      unfold processRow
      rw [hres]
      dsimp only
      rw [hexam]
      dsimp only
      rw [hstu]
    rw [hline, hrow]
    exact upsertResult_stores _ stu examDef c i

/-- Snapshot for the C6 witness: one definition `"LGS"`, one student, no
results. -/
def c6wsnap : Snapshot :=
  ⟨[⟨"d1", "LGS", "2024-01-01"⟩], [⟨"s1", "Ali", "Veli", "c1", none⟩], [],
    0, "2024-01-01"⟩

/-- C6 witness: the acceptance branch at the boundary row
`"LGS⟶Ali Veli⟶8⟶2"` (tab-separated, `correct + incorrect = 10`): the row is
stored with `empty = 0` and status `ATTENDED`, nothing skipped. -/
theorem c6_score_validation_witness :
    splitResultLine "LGS\tAli Veli\t8\t2" = ["LGS", "Ali Veli"] ++ ["8", "2"] ∧
      ((processLine (mkBatchState c6wsnap) "LGS\tAli Veli\t8\t2").skippedCount =
          (mkBatchState c6wsnap).skippedCount ∧
        (processLine (mkBatchState c6wsnap) "LGS\tAli Veli\t8\t2").addedCount +
            (processLine (mkBatchState c6wsnap)
              "LGS\tAli Veli\t8\t2").updatedCount =
          (mkBatchState c6wsnap).addedCount +
            (mkBatchState c6wsnap).updatedCount + 1 ∧
        ∃ r ∈ (processLine (mkBatchState c6wsnap) "LGS\tAli Veli\t8\t2").results,
          r.studentId = "s1" ∧ r.examId = some "d1" ∧ r.correct = 8 ∧
          r.incorrect = 2 ∧ r.empty = 10 - (8 + 2) ∧
          r.status = some ResStatus.attended) :=
  ⟨by decide,
    (c6_score_validation "LGS\tAli Veli\t8\t2" (mkBatchState c6wsnap)
      ["LGS", "Ali Veli"] "8" "2" (by decide)).2 8 2
      (mkBatchState c6wsnap).examDefs "LGS" "Ali Veli"
      ⟨"d1", "LGS", "2024-01-01"⟩ (mkBatchState c6wsnap).examDefs 0
      ⟨"s1", "Ali", "Veli", "c1", none⟩ (by decide) (by decide) (by decide)
      (by decide) (by decide) (by decide) (by decide)⟩

/- ## Claim C2 — the MISSING back-fill -/

/-- All stored rows for one `(studentId, examId)` pair. -/
def resultsFor (rs : List ExamResult) (sid eid : String) : List ExamResult :=
  rs.filter (fun r => r.studentId == sid && r.examId == some eid)

/-- The back-fill pass never changes the student list, the participation
trackers or the definition list. -/
def backfillPreserves (a b : BatchState) : Prop :=
  b.students = a.students ∧ b.processed = a.processed ∧
    b.examDefs = a.examDefs ∧ b.involved = a.involved

theorem backfillStudent_fields (examId : String) (examDef : ExamDefinition)
    (seen : List String) (acc : BatchState) (s : Student) :
    backfillPreserves acc (backfillStudent examId examDef seen acc s) := by
  unfold backfillStudent backfillPreserves
  split
  · exact ⟨rfl, rfl, rfl, rfl⟩
  · split <;> exact ⟨rfl, rfl, rfl, rfl⟩

theorem resultsFor_append_missing (rs : List ExamResult) (n : Nat)
    (uid eid' : String) (examDef : ExamDefinition) (sid eid : String) :
    resultsFor (rs ++ [mkMissingRow n uid eid' examDef]) sid eid =
      if uid == sid && eid' == eid then
        resultsFor rs sid eid ++ [mkMissingRow n uid eid' examDef]
      else resultsFor rs sid eid := by
  unfold resultsFor mkMissingRow
  rw [List.filter_append]
  by_cases h1 : uid = sid
  · by_cases h2 : eid' = eid
    · simp [h1, h2]
    · simp [h1, h2]
  · simp [h1]

/-- One inner-loop step changes the rows of `(sid, eid)` only when it is the
step of a student with id `sid` for exam `eid`, the student is unseen and the
pair has no rows yet — in which case it appends exactly one `MISSING` row. -/
theorem backfillStudent_resultsFor (k : String) (examDef : ExamDefinition)
    (seen : List String) (acc : BatchState) (u : Student) (sid eid : String)
    (h : eid ≠ k ∨ u.id ≠ sid ∨ seen.contains sid = true ∨
      resultsFor acc.results sid eid ≠ []) :
    resultsFor (backfillStudent k examDef seen acc u).results sid eid =
      resultsFor acc.results sid eid := by
  unfold backfillStudent
  by_cases hs : seen.contains u.id = true
  · rw [if_pos hs]
  · rw [if_neg hs]
    cases hf : acc.results.find?
        (fun r => r.studentId == u.id && r.examId == some k) with
    | some _ => rfl
    | none =>
      simp only []
      rw [resultsFor_append_missing]
      by_cases h1 : u.id = sid
      · by_cases h2 : k = eid
        · subst h1
          subst h2
          rcases h with h | h | h | h
        -- eid ≠ k impossible
          · exact absurd rfl h
          · exact absurd rfl h
          · rw [h] at hs
            simp at hs
          · exfalso
            apply h
            unfold resultsFor
            rw [List.filter_eq_nil_iff]
            intro r hr
            have := List.find?_eq_none.mp hf r hr
            simpa using this
        · simp [h2]
      · simp [h1]

/-- One inner-loop step in the establishing case: the unseen student with id
`sid` and no existing rows gets exactly one `MISSING` row. -/
theorem backfillStudent_creates (k : String) (examDef : ExamDefinition)
    (seen : List String) (acc : BatchState) (u : Student) (sid : String)
    (hid : u.id = sid) (hseen : seen.contains sid = false)
    (hempty : resultsFor acc.results sid k = []) :
    resultsFor (backfillStudent k examDef seen acc u).results sid k =
      [mkMissingRow acc.nextId sid k examDef] := by
  subst hid
  have hf : acc.results.find?
      (fun r => r.studentId == u.id && r.examId == some k) = none := by
    rw [List.find?_eq_none]
    intro r hr
    have := List.filter_eq_nil_iff.mp hempty r hr
    simpa using this
  unfold backfillStudent
  rw [if_neg (by rw [hseen]; simp)]
  simp only [hf]
  rw [resultsFor_append_missing]
  simp [hempty]

theorem backfillPreserves_trans {a b c : BatchState}
    (h1 : backfillPreserves a b) (h2 : backfillPreserves b c) :
    backfillPreserves a c :=
  ⟨h2.1.trans h1.1, h2.2.1.trans h1.2.1, h2.2.2.1.trans h1.2.2.1,
    h2.2.2.2.trans h1.2.2.2⟩

theorem backfill_fold_fields (k : String) (examDef : ExamDefinition)
    (seen : List String) :
    ∀ (ss : List Student) (acc : BatchState),
      backfillPreserves acc
        (ss.foldl (backfillStudent k examDef seen) acc) := by
  intro ss
  induction ss with
  | nil => intro acc; exact ⟨rfl, rfl, rfl, rfl⟩
  | cons u t ih =>
    intro acc
    rw [List.foldl_cons]
    exact backfillPreserves_trans
      (backfillStudent_fields k examDef seen acc u) (ih _)

theorem backfill_fold_preserve (k : String) (examDef : ExamDefinition)
    (seen : List String) (sid eid : String) :
    ∀ (ss : List Student) (acc : BatchState),
      (eid ≠ k ∨ seen.contains sid = true ∨
        resultsFor acc.results sid eid ≠ []) →
      resultsFor ((ss.foldl (backfillStudent k examDef seen) acc)).results
        sid eid = resultsFor acc.results sid eid := by
  intro ss
  induction ss with
  | nil => intro acc _; rfl
  | cons u t ih =>
    intro acc h
    rw [List.foldl_cons]
    have hstep : resultsFor (backfillStudent k examDef seen acc u).results
        sid eid = resultsFor acc.results sid eid := by
      apply backfillStudent_resultsFor
      rcases h with h | h | h
      · exact Or.inl h
      · exact Or.inr (Or.inr (Or.inl h))
      · exact Or.inr (Or.inr (Or.inr h))
    rw [ih _ ?_, hstep]
    rcases h with h | h | h
    · exact Or.inl h
    · exact Or.inr (Or.inl h)
    · rw [hstep]
      exact Or.inr (Or.inr h)

theorem backfill_fold_establish (k : String) (examDef : ExamDefinition)
    (seen : List String) (sid : String) (hseen : seen.contains sid = false) :
    ∀ (ss : List Student) (acc : BatchState),
      (∃ u ∈ ss, u.id = sid) →
      resultsFor acc.results sid k = [] →
      ∃ n, resultsFor
          ((ss.foldl (backfillStudent k examDef seen) acc)).results sid k =
        [mkMissingRow n sid k examDef] := by
  intro ss
  induction ss with
  | nil => intro acc hmem _; simp at hmem
  | cons u t ih =>
    intro acc hmem hempty
    rw [List.foldl_cons]
    by_cases hu : u.id = sid
    · have hcreate := backfillStudent_creates k examDef seen acc u sid hu
        hseen hempty
      refine ⟨acc.nextId, ?_⟩
      rw [backfill_fold_preserve k examDef seen sid k t _ ?_, hcreate]
      rw [hcreate]
      exact Or.inr (Or.inr (by simp))
    · have hstep : resultsFor (backfillStudent k examDef seen acc u).results
          sid k = resultsFor acc.results sid k :=
        backfillStudent_resultsFor k examDef seen acc u sid k
          (Or.inr (Or.inl hu))
      obtain ⟨w, hw, hwid⟩ := hmem
      rw [List.mem_cons] at hw
      rcases hw with rfl | hw
      · exact absurd hwid hu
      · exact ih _ ⟨w, hw, hwid⟩ (by rw [hstep, hempty])

theorem backfillExam_fields (acc : BatchState) (entry : String × List String) :
    backfillPreserves acc (backfillExam acc entry) := by
  obtain ⟨k, cids⟩ := entry
  unfold backfillExam
  dsimp only
  cases acc.examDefs.find? (fun e => e.id == k) with
  | none => exact ⟨rfl, rfl, rfl, rfl⟩
  | some examDef => exact backfill_fold_fields _ _ _ _ _

theorem backfillExam_other (acc : BatchState) (entry : String × List String)
    (sid eid : String) (hne : entry.1 ≠ eid) :
    resultsFor (backfillExam acc entry).results sid eid =
      resultsFor acc.results sid eid := by
  obtain ⟨k, cids⟩ := entry
  unfold backfillExam
  dsimp only
  dsimp only at hne
  cases acc.examDefs.find? (fun e => e.id == k) with
  | none => rfl
  | some examDef =>
    exact backfill_fold_preserve _ _ _ _ _ _ _ (Or.inl (fun h => hne h.symm))

theorem backfillExam_self_preserve (acc : BatchState) (k : String)
    (cids : List String) (sid : String)
    (h : ((lookupKey acc.processed k).getD []).contains sid = true ∨
      resultsFor acc.results sid k ≠ []) :
    resultsFor (backfillExam acc (k, cids)).results sid k =
      resultsFor acc.results sid k := by
  unfold backfillExam
  dsimp only
  cases acc.examDefs.find? (fun e => e.id == k) with
  | none => rfl
  | some examDef => exact backfill_fold_preserve _ _ _ _ _ _ _ (Or.inr h)

theorem backfillExam_self_establish (acc : BatchState) (k : String)
    (cids : List String) (examDef : ExamDefinition) (s : Student)
    (hdef : acc.examDefs.find? (fun e => e.id == k) = some examDef)
    (hs : s ∈ acc.students) (hcls : cids.contains s.classroomId = true)
    (hseen : ((lookupKey acc.processed k).getD []).contains s.id = false)
    (hempty : resultsFor acc.results s.id k = []) :
    ∃ n, resultsFor (backfillExam acc (k, cids)).results s.id k =
      [mkMissingRow n s.id k examDef] := by
  unfold backfillExam
  dsimp only
  rw [hdef]
  apply backfill_fold_establish k examDef _ s.id hseen _ acc _ hempty
  refine ⟨s, ?_, rfl⟩
  rw [List.mem_filter]
  exact ⟨hs, hcls⟩

theorem backfill_entries_other (sid eid : String) :
    ∀ (l : List (String × List String)) (acc : BatchState),
      (∀ p ∈ l, p.1 ≠ eid) →
      resultsFor ((l.foldl backfillExam acc).results) sid eid =
          resultsFor acc.results sid eid ∧
        backfillPreserves acc (l.foldl backfillExam acc) := by
  intro l
  induction l with
  | nil => intro acc _; exact ⟨rfl, rfl, rfl, rfl, rfl⟩
  | cons e t ih =>
    intro acc hl
    rw [List.foldl_cons]
    have he : e.1 ≠ eid := hl e (List.mem_cons_self e t)
    obtain ⟨h1, h2⟩ := ih (backfillExam acc e)
      (fun p hp => hl p (List.mem_cons_of_mem e hp))
    refine ⟨?_, backfillPreserves_trans (backfillExam_fields acc e) h2⟩
    rw [h1, backfillExam_other acc e sid eid he]

/-- The keys (exam ids) of a modelled map-of-sets, in insertion order. -/
def keysOf (m : KeyedSets) : List String := m.map (·.1)

theorem keysOf_addToKey (m : KeyedSets) (k v : String) :
    keysOf (addToKey m k v) = keysOf m := by
  unfold keysOf addToKey
  rw [List.map_map]
  apply List.map_congr_left
  intro p _
  by_cases hp : p.1 = k <;> simp [hp]

theorem hasKey_false_not_mem (m : KeyedSets) (k : String)
    (h : hasKey m k = false) : k ∉ keysOf m := by
  intro hmem
  unfold keysOf at hmem
  obtain ⟨p, hp, hpk⟩ := List.mem_map.mp hmem
  unfold hasKey at h
  rw [List.any_eq_false] at h
  have := h p hp
  simp [hpk] at this

/-- The participation trackers keep equal key lists, and tracking one row
keeps the keys duplicate-free. -/
theorem trackParticipation_inv (p i : KeyedSets) (k sid cid : String)
    (heq : keysOf p = keysOf i) (hnd : (keysOf i).Nodup) :
    keysOf (trackParticipation p i k sid cid).1 =
        keysOf (trackParticipation p i k sid cid).2 ∧
      (keysOf (trackParticipation p i k sid cid).2).Nodup := by
  unfold trackParticipation ensureKeys
  by_cases hk : hasKey p k
  · simp only [hk, if_true]
    rw [keysOf_addToKey, keysOf_addToKey]
    exact ⟨heq, hnd⟩
  · simp only [hk, Bool.false_eq_true, if_false]
    rw [keysOf_addToKey, keysOf_addToKey]
    have hmem : k ∉ keysOf i := heq ▸ hasKey_false_not_mem p k (by simpa using hk)
    have hpk : keysOf (p ++ [(k, ([] : List String))]) = keysOf p ++ [k] := by
      unfold keysOf
      rw [List.map_append]
      rfl
    have hik : keysOf (i ++ [(k, ([] : List String))]) = keysOf i ++ [k] := by
      unfold keysOf
      rw [List.map_append]
      rfl
    rw [hpk, hik, heq]
    exact ⟨rfl, by simp [List.nodup_append, hnd, hmem]⟩

/-- Invariant carried through the row-processing loop: the two participation
trackers have the same keys and the keys are duplicate-free. -/
def MapsInv (st : BatchState) : Prop :=
  keysOf st.processed = keysOf st.involved ∧ (keysOf st.involved).Nodup

theorem upsertResult_maps (st : BatchState) (student : Student)
    (examDef : ExamDefinition) (c i : Int) :
    (upsertResult st student examDef c i).processed = st.processed ∧
      (upsertResult st student examDef c i).involved = st.involved := by
  unfold upsertResult
  dsimp only
  split
  · exact ⟨rfl, rfl⟩
  · exact ⟨rfl, rfl⟩

theorem processRow_mapsInv (st : BatchState) (nameParts : List String)
    (c i : Int) (h : MapsInv st) : MapsInv (processRow st nameParts c i) := by
  unfold processRow
  cases hres : resolveNames st nameParts with
  | mk defs' names =>
    cases names with
    | none => exact h
    | some pair =>
      obtain ⟨en, sn⟩ := pair
      dsimp only
      cases hexam : resolveExam defs' en st.today st.nextId with
      | none => exact h
      | some trip =>
        obtain ⟨examDef, defs'', nid'⟩ := trip
        dsimp only
        cases hstu : resolveStudent st.students sn with
        | none => exact h
        | some stu =>
          dsimp only
          have hmaps := upsertResult_maps
            { st with
              examDefs := defs''
              nextId := nid'
              processed := (trackParticipation st.processed st.involved
                examDef.id stu.id stu.classroomId).1
              involved := (trackParticipation st.processed st.involved
                examDef.id stu.id stu.classroomId).2 }
            stu examDef c i
          have htrack := trackParticipation_inv st.processed st.involved
            examDef.id stu.id stu.classroomId h.1 h.2
          constructor
          · rw [hmaps.1, hmaps.2]
            exact htrack.1
          · rw [hmaps.2]
            exact htrack.2

theorem processLine_mapsInv (st : BatchState) (line : String)
    (h : MapsInv st) : MapsInv (processLine st line) := by
  unfold processLine
  dsimp only
  split
  · split
    · split
      · exact h
      · exact processRow_mapsInv _ _ _ _ h
    · exact h
  · exact h

theorem processAllLines_mapsInv (text : String) (snap : Snapshot) :
    MapsInv (processAllLines text snap) := by
  unfold processAllLines
  have hinit : MapsInv (mkBatchState snap) := ⟨rfl, List.nodup_nil⟩
  generalize mkBatchState snap = st0 at hinit
  induction linesOf text generalizing st0 with
  | nil => exact hinit
  | cons l t ih =>
    rw [List.foldl_cons]
    exact ih _ (processLine_mapsInv _ _ hinit)

theorem split_of_mem_nodup_keys (l : List (String × List String)) (k : String)
    (v : List String) (hmem : (k, v) ∈ l) (hnd : (keysOf l).Nodup) :
    ∃ l1 l2, l = l1 ++ (k, v) :: l2 ∧ (∀ p ∈ l1, p.1 ≠ k) ∧
      ∀ p ∈ l2, p.1 ≠ k := by
  obtain ⟨l1, l2, rfl⟩ := List.append_of_mem hmem
  refine ⟨l1, l2, rfl, ?_, ?_⟩
  · intro p hp hpk
    unfold keysOf at hnd
    rw [List.map_append, List.map_cons, List.nodup_append] at hnd
    exact hnd.2.2 (List.mem_map_of_mem _ hp) (by rw [hpk]; exact List.mem_cons_self _ _)
  · intro p hp hpk
    unfold keysOf at hnd
    rw [List.map_append, List.map_cons, List.nodup_append, List.nodup_cons] at hnd
    have hmm : p.1 ∈ List.map (fun x => x.1) l2 := List.mem_map_of_mem _ hp
    rw [hpk] at hmm
    exact hnd.2.1.1 hmm

/-- C2: after the row-processing phase, for every exam id recorded as
involved with its involved classroom set, every student of an involved
classroom who was not seen for that exam and has no stored row for the pair
receives exactly one new `MISSING` row, all-zero; a student who was seen, or
who already has a row for the pair, receives nothing — the pair's stored
rows are unchanged by the back-fill. -/
theorem c2_missing_backfill (text : String) (snap : Snapshot)
    (examId : String) (classIds : List String) (examDef : ExamDefinition)
    (s : Student)
    (hentry : (examId, classIds) ∈ (processAllLines text snap).involved)
    (hdef : (processAllLines text snap).examDefs.find?
      (fun e => e.id == examId) = some examDef)
    (hs : s ∈ (processAllLines text snap).students)
    (hcls : classIds.contains s.classroomId = true) :
    ((((lookupKey (processAllLines text snap).processed examId).getD
          []).contains s.id = false ∧
        resultsFor (processAllLines text snap).results s.id examId = []) →
      ∃ n, resultsFor (runResultImport text snap).results s.id examId =
        [mkMissingRow n s.id examId examDef]) ∧
    ((((lookupKey (processAllLines text snap).processed examId).getD
          []).contains s.id = true ∨
        resultsFor (processAllLines text snap).results s.id examId ≠ []) →
      resultsFor (runResultImport text snap).results s.id examId =
        resultsFor (processAllLines text snap).results s.id examId) := by
  have hinv := processAllLines_mapsInv text snap
  obtain ⟨l1, l2, hsplit, hl1, hl2⟩ := split_of_mem_nodup_keys _ examId
    classIds hentry hinv.2
  have hrun : runResultImport text snap =
      l2.foldl backfillExam (backfillExam
        (l1.foldl backfillExam (processAllLines text snap))
        (examId, classIds)) := by
    unfold runResultImport backfillMissing
    rw [hsplit, List.foldl_append, List.foldl_cons]
  obtain ⟨h1, hpres⟩ := backfill_entries_other s.id examId l1
    (processAllLines text snap) hl1
  constructor
  · rintro ⟨hseen, hempty⟩
    obtain ⟨n, hafter⟩ := backfillExam_self_establish
      (l1.foldl backfillExam (processAllLines text snap)) examId classIds
      examDef s
      (by rw [hpres.2.2.1]; exact hdef)
      (by rw [hpres.1]; exact hs) hcls
      (by rw [hpres.2.1]; exact hseen)
      (by rw [h1]; exact hempty)
    obtain ⟨h2, _⟩ := backfill_entries_other s.id examId l2
      (backfillExam (l1.foldl backfillExam (processAllLines text snap))
        (examId, classIds)) hl2
    refine ⟨n, ?_⟩
    rw [hrun, h2, hafter]
  · intro hcond
    have hmid : resultsFor (backfillExam
        (l1.foldl backfillExam (processAllLines text snap))
        (examId, classIds)).results s.id examId =
        resultsFor (l1.foldl backfillExam
          (processAllLines text snap)).results s.id examId := by
      apply backfillExam_self_preserve
      rcases hcond with hc | hc
      · exact Or.inl (by rw [hpres.2.1]; exact hc)
      · exact Or.inr (by rw [h1]; exact hc)
    obtain ⟨h2, _⟩ := backfill_entries_other s.id examId l2
      (backfillExam (l1.foldl backfillExam (processAllLines text snap))
        (examId, classIds)) hl2
    rw [hrun, h2, hmid, h1]

/-- Snapshot for the C2 witness: exam `"X"` defined, students A, B, C all in
classroom `"c1"`, no prior results. -/
def c2wsnap : Snapshot :=
  ⟨[⟨"dX", "X", "2024-01-01"⟩],
    [⟨"sA", "A", "Aa", "c1", none⟩, ⟨"sB", "B", "Bb", "c1", none⟩,
      ⟨"sC", "C", "Cc", "c1", none⟩], [], 0, "2024-01-01"⟩

/-- Batch for the C2 witness: rows for A and B only. -/
def c2wtext : String := "X\tA Aa\t8\t2\nX\tB Bb\t6\t3"

/-- C2 witness: C was neither seen nor had a row, so the import leaves
exactly one all-zero `MISSING` row for `(sC, dX)`. -/
theorem c2_missing_backfill_witness :
    (((lookupKey (processAllLines c2wtext c2wsnap).processed "dX").getD
        []).contains "sC" = false ∧
      resultsFor (processAllLines c2wtext c2wsnap).results "sC" "dX" = []) ∧
    ∃ n, resultsFor (runResultImport c2wtext c2wsnap).results "sC" "dX" =
      [mkMissingRow n "sC" "dX" ⟨"dX", "X", "2024-01-01"⟩] := by
  refine ⟨⟨by decide, by decide⟩, ?_⟩
  exact (c2_missing_backfill c2wtext c2wsnap "dX" ["c1"]
    ⟨"dX", "X", "2024-01-01"⟩ ⟨"sC", "C", "Cc", "c1", none⟩
    (by decide) (by decide) (by decide) (by decide)).1 ⟨by decide, by decide⟩

/- ## Claim C3 — idempotence of re-import -/

/-- Snapshot for the C3 counterexample: one definition `"E"`, students
`"X Ali Veli"`, `"Mehmet Can"`, `"Ali Veli"` in three classrooms. -/
def c3snap : Snapshot :=
  ⟨[⟨"d1", "E", "2024-01-01"⟩],
    [⟨"s1", "X Ali", "Veli", "cA", none⟩, ⟨"s2", "Mehmet", "Can", "cB", none⟩,
      ⟨"s3", "Ali", "Veli", "cC", none⟩], [], 0, "2024-01-01"⟩

/-- Batch for the C3 counterexample: a merged whitespace row plus a tab row
that creates the definition `"E X"` during the first run. -/
def c3text : String := "E X Ali Veli 7 1\nE X\tMehmet Can\t8\t2"

/-- C3 counterexample: running the same text a second time on the state left
by the first run is **not** idempotent. In the first run the merged row
`"E X Ali Veli 7 1"` resolves to exam `"E"` and student `"X Ali Veli"`, and
the tab row creates the definition `"E X"`. In the second run `"E X"` is now
the longest matching prefix, so the merged row resolves to exam `"E X"` and
student `"Ali Veli"` — a pair with no existing row — and the second run
*adds* a row (`added = 1`, not `0`) and grows the stored state by one row. -/
theorem c3_counterexample :
    (runResultImport c3text (snapOf (runResultImport c3text c3snap))).addedCount
        = 1 ∧
      (runResultImport c3text
          (snapOf (runResultImport c3text c3snap))).updatedCount = 1 ∧
      (runResultImport c3text
          (snapOf (runResultImport c3text c3snap))).results.length =
        (runResultImport c3text c3snap).results.length + 1 := by
  refine ⟨by decide, by decide, by decide⟩

/-- At most one stored row per `(studentId, examId)` pair. -/
def PairwiseDistinct (rs : List ExamResult) : Prop :=
  rs.Pairwise (fun a b => ¬(a.studentId = b.studentId ∧ a.examId = b.examId))

/-- Invariant threaded through an import: distinct pairs, distinct ids, and
every stored id differs from every id the batch may still generate. -/
def ResultsInv (rs : List ExamResult) (n : Nat) : Prop :=
  PairwiseDistinct rs ∧ (rs.map (fun r => r.id)).Nodup ∧
    ∀ r ∈ rs, ∀ m, n ≤ m → r.id ≠ freshId m

theorem ResultsInv.mono {rs : List ExamResult} {n n' : Nat}
    (h : ResultsInv rs n) (hle : n ≤ n') : ResultsInv rs n' :=
  ⟨h.1, h.2.1, fun r hr m hm => h.2.2 r hr m (le_trans hle hm)⟩

/-- Appending a freshly numbered row for a pair that has no stored row
preserves the invariant. -/
theorem ResultsInv.append {rs : List ExamResult} {n : Nat}
    (h : ResultsInv rs n) (nr : ExamResult) (hid : nr.id = freshId n)
    (hnew : ∀ r ∈ rs, ¬(r.studentId = nr.studentId ∧ r.examId = nr.examId)) :
    ResultsInv (rs ++ [nr]) (n + 1) := by
  refine ⟨?_, ?_, ?_⟩
  · unfold PairwiseDistinct
    rw [List.pairwise_append]
    refine ⟨h.1, List.pairwise_singleton _ _, ?_⟩
    intro a ha b hb
    rw [List.mem_singleton] at hb
    subst hb
    exact hnew a ha
  · rw [List.map_append]
    simp only [List.map_cons, List.map_nil]
    rw [List.nodup_append]
    refine ⟨h.2.1, List.nodup_singleton _, ?_⟩
    intro x hx hx2
    rw [List.mem_singleton] at hx2
    obtain ⟨r, hr, hrid⟩ := List.mem_map.mp hx
    subst hx2
    exact h.2.2 r hr n le_rfl (by rw [hrid, hid])
  · intro r hr m hm
    rw [List.mem_append, List.mem_singleton] at hr
    rcases hr with hr | rfl
    · exact h.2.2 r hr m (by omega)
    · rw [hid]
      intro hcon
      have := freshId_injective hcon
      omega

/-- Replacing the row of an existing pair in place (same id, same pair)
preserves the invariant. -/
theorem ResultsInv.update {rs : List ExamResult} {n : Nat}
    (h : ResultsInv rs n) (idx : Nat) (hlt : idx < rs.length)
    (upd : ExamResult)
    (hid : upd.id = (rs.get ⟨idx, hlt⟩).id)
    (hsid : upd.studentId = (rs.get ⟨idx, hlt⟩).studentId)
    (heid : upd.examId = (rs.get ⟨idx, hlt⟩).examId) :
    ResultsInv (rs.set idx upd) n := by
  simp only [List.get_eq_getElem, Fin.val_mk] at hid hsid heid
  refine ⟨?_, ?_, ?_⟩
  · have hpw := h.1
    unfold PairwiseDistinct at *
    rw [List.pairwise_iff_getElem] at *
    intro i j h1 h2 hij
    have h1x : i < rs.length := by simpa using h1
    have h2x : j < rs.length := by simpa using h2
    have horig := hpw i j h1x h2x hij
    simp only [List.getElem_set]
    by_cases hii : idx = i
    · subst hii
      rw [if_pos rfl, if_neg (by omega)]
      intro hcon
      apply horig
      exact ⟨hsid.symm.trans hcon.1, heid.symm.trans hcon.2⟩
    · rw [if_neg hii]
      by_cases hjj : idx = j
      · subst hjj
        rw [if_pos rfl]
        intro hcon
        apply horig
        exact ⟨hcon.1.trans hsid, hcon.2.trans heid⟩
      · rw [if_neg hjj]
        exact horig
  · have hmap : (rs.set idx upd).map (fun r => r.id) =
        rs.map (fun r => r.id) := by
      apply List.ext_getElem
      · simp
      · intro i h1 h2
        simp only [List.getElem_map, List.getElem_set]
        by_cases hii : idx = i
        · subst hii
          rw [if_pos rfl, hid]
        · rw [if_neg hii]
    rw [hmap]
    exact h.2.1
  · intro r hr m hm
    rcases List.mem_or_eq_of_mem_set hr with hr | rfl
    · exact h.2.2 r hr m hm
    · rw [hid]
      have hmem : rs[idx] ∈ rs := List.getElem_mem _
      exact h.2.2 _ hmem m hm

theorem upsertResult_inv (st : BatchState) (student : Student)
    (examDef : ExamDefinition) (c i : Int)
    (h : ResultsInv st.results st.nextId) :
    ResultsInv (upsertResult st student examDef c i).results
      (upsertResult st student examDef c i).nextId := by
  unfold upsertResult
  cases hf : st.results.find?
      (fun r => r.studentId == student.id && r.examId == some examDef.id) with
  | none =>
    dsimp only
    apply h.append _ rfl
    intro r hr hcon
    have hp := List.find?_eq_none.mp hf r hr
    apply hp
    have h1 : r.studentId = student.id := hcon.1
    have h2 : r.examId = some examDef.id := hcon.2
    simp [h1, h2]
  | some ex =>
    have hex : ex ∈ st.results := List.mem_of_find?_eq_some hf
    have hpred := List.find?_some hf
    have hsid : ex.studentId = student.id := by
      simp at hpred
      exact hpred.1
    have heid : ex.examId = some examDef.id := by
      simp at hpred
      exact hpred.2
    have hnone : st.results.findIdx? (fun r => r.id == ex.id) ≠ none := by
      intro hcon
      rw [List.findIdx?_eq_none_iff] at hcon
      have := hcon ex hex
      simp at this
    obtain ⟨idx, hidx⟩ : ∃ idx,
        st.results.findIdx? (fun r => r.id == ex.id) = some idx := by
      cases hcase : st.results.findIdx? (fun r => r.id == ex.id) with
      | none => exact absurd hcase hnone
      | some idx => exact ⟨idx, rfl⟩
    obtain ⟨x, hget, hpx⟩ := findIdxq_some_get st.results idx hidx
    have hlt : idx < st.results.length := by
      rcases List.get?_eq_some.mp hget with ⟨hl, _⟩
      exact hl
    have hxg : st.results.get ⟨idx, hlt⟩ = x := by
      rcases List.get?_eq_some.mp hget with ⟨hl, hg⟩
      exact hg
    simp only [List.get_eq_getElem, Fin.val_mk] at hxg
    have hxid : x.id = ex.id := by simpa using hpx
    have hxex : x = ex := by
      have hinj := List.inj_on_of_nodup_map h.2.1
      have hxmem : x ∈ st.results := List.get?_mem hget
      exact hinj hxmem hex hxid
    simp only [hidx]
    apply h.update idx hlt
    · simp [hxg, hxex, hxid]
    · simp [hxg, hxex, hsid]
    · simp [hxg, hxex, heid]

theorem resolveExam_nid_le (defs : List ExamDefinition) (nm today : String)
    (nid : Nat) (d : ExamDefinition) (defs2 : List ExamDefinition)
    (nid2 : Nat) (h : resolveExam defs nm today nid = some (d, defs2, nid2)) :
    nid ≤ nid2 := by
  unfold resolveExam at h
  cases hfind : defs.find? (fun e => normTr e.name == normTr nm) with
  | some e =>
    rw [hfind] at h
    simp at h
    obtain ⟨h1, h2, h3⟩ := h
    omega
  | none =>
    rw [hfind] at h
    by_cases hl : 0 < jsLen nm
    · simp [hl] at h
      obtain ⟨h1, h2, h3⟩ := h
      omega
    · simp [hl] at h

theorem processRow_inv (st : BatchState) (nameParts : List String) (c i : Int)
    (h : ResultsInv st.results st.nextId) :
    ResultsInv (processRow st nameParts c i).results
      (processRow st nameParts c i).nextId := by
  unfold processRow
  cases hres : resolveNames st nameParts with
  | mk defs' names =>
    cases names with
    | none => exact h
    | some pair =>
      obtain ⟨en, sn⟩ := pair
      dsimp only
      cases hexam : resolveExam defs' en st.today st.nextId with
      | none => exact h
      | some trip =>
        obtain ⟨examDef, defs'', nid'⟩ := trip
        dsimp only
        have hle : st.nextId ≤ nid' :=
          resolveExam_nid_le defs' en st.today st.nextId examDef defs'' nid'
            hexam
        cases hstu : resolveStudent st.students sn with
        | none => exact h.mono hle
        | some stu =>
          dsimp only
          exact upsertResult_inv _ stu examDef c i (h.mono hle)

theorem processLine_inv (st : BatchState) (line : String)
    (h : ResultsInv st.results st.nextId) :
    ResultsInv (processLine st line).results (processLine st line).nextId := by
  unfold processLine
  dsimp only
  split
  · split
    · split
      · exact h
      · exact processRow_inv _ _ _ _ h
    · exact h
  · exact h

theorem backfillStudent_inv (k : String) (examDef : ExamDefinition)
    (seen : List String) (acc : BatchState) (s : Student)
    (h : ResultsInv acc.results acc.nextId) :
    ResultsInv (backfillStudent k examDef seen acc s).results
      (backfillStudent k examDef seen acc s).nextId := by
  unfold backfillStudent
  split
  · exact h
  · cases hf : acc.results.find?
        (fun r => r.studentId == s.id && r.examId == some k) with
    | some _ => exact h
    | none =>
      dsimp only
      apply h.append _ rfl
      intro r hr hcon
      have hp := List.find?_eq_none.mp hf r hr
      apply hp
      have h1 : r.studentId = s.id := hcon.1
      have h2 : r.examId = some k := hcon.2
      simp [h1, h2]

theorem backfillExam_inv (acc : BatchState) (entry : String × List String)
    (h : ResultsInv acc.results acc.nextId) :
    ResultsInv (backfillExam acc entry).results
      (backfillExam acc entry).nextId := by
  obtain ⟨k, cids⟩ := entry
  unfold backfillExam
  dsimp only
  cases acc.examDefs.find? (fun e => e.id == k) with
  | none => exact h
  | some examDef =>
    dsimp only
    revert h
    generalize (lookupKey acc.processed k).getD [] = seen
    generalize acc.students.filter (fun s => cids.contains s.classroomId) = ss
    revert acc
    induction ss with
    | nil => intro acc h; exact h
    | cons u t ih =>
      intro acc h
      rw [List.foldl_cons]
      exact ih _ (backfillStudent_inv _ _ _ _ _ h)

theorem runResultImport_inv (text : String) (snap : Snapshot)
    (h : ResultsInv snap.results snap.nextId) :
    ResultsInv (runResultImport text snap).results
      (runResultImport text snap).nextId := by
  unfold runResultImport backfillMissing
  have hmid : ResultsInv (processAllLines text snap).results
      (processAllLines text snap).nextId := by
    unfold processAllLines
    have h0 : ResultsInv (mkBatchState snap).results
        (mkBatchState snap).nextId := h
    generalize mkBatchState snap = st0 at h0
    induction linesOf text generalizing st0 with
    | nil => exact h0
    | cons l t ih =>
      rw [List.foldl_cons]
      exact ih _ (processLine_inv _ _ h0)
  generalize (processAllLines text snap).involved = entries
  generalize processAllLines text snap = mid at hmid
  induction entries generalizing mid with
  | nil => exact hmid
  | cons e t ih =>
    rw [List.foldl_cons]
    exact ih _ (backfillExam_inv _ _ hmid)

/-- C3 (amended): re-running an import never duplicates a row for a
`(studentId, examId)` pair — starting from a snapshot with at most one row
per pair, pairwise-distinct row ids, and ids distinct from every batch-
generated id, any run of the result import (hence also a second run on the
state left by a first one) again has at most one row per pair.  The stronger
original claim fails: the second run need not leave the state identical nor
count every parsed row as updated with zero added, because exam definitions
auto-created by the first run can change merged-field resolution
(see the counterexample). -/
theorem c3_pair_uniqueness (text : String) (snap : Snapshot)
    (hpair : PairwiseDistinct snap.results)
    (hids : (snap.results.map (fun r => r.id)).Nodup)
    (hfresh : ∀ r ∈ snap.results, ∀ m, r.id ≠ freshId m) :
    PairwiseDistinct (runResultImport text snap).results :=
  (runResultImport_inv text snap
    ⟨hpair, hids, fun r hr m _ => hfresh r hr m⟩).1

/-- C3 witness: the uniqueness theorem applied to the counterexample batch
over the empty-results snapshot. -/
theorem c3_pair_uniqueness_witness :
    PairwiseDistinct c3snap.results ∧
      PairwiseDistinct (runResultImport c3text c3snap).results :=
  ⟨List.Pairwise.nil,
    c3_pair_uniqueness c3text c3snap List.Pairwise.nil List.nodup_nil
      (fun r hr => absurd hr (List.not_mem_nil r))⟩
